import Mathlib

/-
Shallow embedding of the wiki-library graph engine (src/src/wiki_library.ts,
first variant, lines 1-832) together with the helpers it imports from
src/unnamed (utils: error, delete_element).

Modelling conventions:
* JavaScript objects used as string-keyed dictionaries are association lists
  in insertion order (JS preserves insertion order for non-index string keys);
  assignment updates in place or appends, `delete` removes the binding.
* JS `Set` values are duplicate-free lists in insertion order; `add` appends
  when absent.
* Mutable `Node` and `SCC` objects are stored in arenas keyed by numeric ids,
  so object identity (`!==`, `includes` on object arrays) is id equality and
  aliasing is preserved.  `this.nodes`, `this.SCCs`, `this.duplicated` and
  `this.outerTagRefs` map strings to arena ids.
* utils.delete_element performs `delete arr[arr.indexOf(x)]`, which leaves an
  undefined hole instead of shrinking the array.  In every code path modelled
  here the affected array is either rebuilt before it is next read or only
  queried for membership of real elements, so it is modelled as removal of
  the first occurrence.
* utils.error shows a notice and throws; it is modelled as `Except.error`.
* File-system and UI collaborators (vault reads/writes, modals) are out of
  scope: documents enter as `Doc` records, the confirmation dialog's answer
  enters `addNewEntry` as an `Option Bool` (`none` models the promise being
  rejected, i.e. the modal dismissed with no answer, which the caller sees
  as `null`).
* JS numeric similarity is ℚ; the result `NaN` of `0/0` (empty title-entity
  set or empty tag∪alias set) is modelled as `none : Option ℚ`, with
  `Math.max` and comparisons propagating it as JS does.
-/

namespace Wiki

/-- Association-list lookup, first binding wins.  Models JS property access
`d[k]` on a string-keyed object (keys are kept unique by `setA`/`delA`). -/
def lookupA {κ α : Type} [DecidableEq κ] : List (κ × α) → κ → Option α
  | [], _ => none
  | (k, v) :: rest, key => if key = k then some v else lookupA rest key

/-- Models the JS `in` operator on a dictionary. -/
def memA {κ α : Type} [DecidableEq κ] (l : List (κ × α)) (k : κ) : Bool :=
  (lookupA l k).isSome

/-- Models JS assignment `d[k] = v`: update in place, else append (insertion
order preserved). -/
def setA {κ α : Type} [DecidableEq κ] : List (κ × α) → κ → α → List (κ × α)
  | [], key, v => [(key, v)]
  | (k, w) :: rest, key, v =>
    if key = k then (key, v) :: rest else (k, w) :: setA rest key v

/-- Models JS `delete d[k]`. -/
def delA {κ α : Type} [DecidableEq κ] : List (κ × α) → κ → List (κ × α)
  | [], _ => []
  | (k, w) :: rest, key => if key = k then delA rest key else (k, w) :: delA rest key

/-- Apply `f` to the value bound to `key`, if any. -/
def modA {κ α : Type} [DecidableEq κ] (l : List (κ × α)) (key : κ) (f : α → α) :
    List (κ × α) :=
  match lookupA l key with
  | some v => setA l key (f v)
  | none => l

/-- JS `Set.add`: append when absent (JS sets iterate in insertion order). -/
def insertAbsent {α : Type} [DecidableEq α] (l : List α) (x : α) : List α :=
  if x ∈ l then l else l ++ [x]

/-- `new Set(xs)` for an iterable, as a duplicate-free list in first-occurrence
order. -/
def jsSetOfList {α : Type} [DecidableEq α] (l : List α) : List α :=
  l.foldl insertAbsent []

/-- utils.delete_element: `delete arr[arr.indexOf(x)]` (see the conventions
note on holes above). -/
def deleteElement {α : Type} [DecidableEq α] : List α → α → List α
  | [], _ => []
  | y :: l, x => if y = x then l else y :: deleteElement l x

/-- `tag.startsWith('#')`, stated on the character list (the sigil is a
single character in both encodings). -/
def hasHashSigil (tag : String) : Bool :=
  match tag.data with
  | '#' :: _ => true
  | _ => false

/-- Tag normalisation applied by Node.init_frontmatter_and_inherit_tags
(line 59): a leading sigil `#` is dropped (`tag.slice(1)`). -/
def stripHash (tag : String) : String :=
  match tag.data with
  | '#' :: rest => String.mk rest
  | _ => tag

/-- One graph node (class Node): the frontmatter fields the engine reads,
the inherit-tag sets, and the derived adjacency.  `parents`, `children`
hold node arena ids; `scc` holds an SCC arena id. -/
structure Node where
  fileName : String
  noteType : String
  wikiTag : String
  tags : List String
  aliases : List String
  inheritTags : List String
  originalInheritTags : List String
  frontmatterModified : Bool
  parents : List Nat
  children : List Nat
  scc : Option Nat
deriving Repr, DecidableEq

/-- interface SCC (lines 166-171); member/adjacency lists hold arena ids. -/
structure SCC where
  nodes : List Nat
  parents : List Nat
  children : List Nat
  pseudoWikiTag : String
deriving Repr, DecidableEq

/-- The WikiLibrary state the graph engine mutates. -/
structure Library where
  nodeArena : List (Nat × Node)
  sccArena : List (Nat × SCC)
  nodeNext : Nat
  sccNext : Nat
  nodes : List (String × Nat)
  sccs : List (String × Nat)
  duplicated : List (String × List Nat)
  outerTagRefs : List (String × List Nat)
deriving Repr, DecidableEq

/-- A scanned markdown document: the frontmatter fields the engine reads plus
the optional pre-existing `[Auto]:` inherit-tag line of the body. -/
structure Doc where
  fileName : String
  noteType : String
  wikiTag : String
  tags : List String
  aliases : List String
  auto : List String
deriving Repr, DecidableEq

def getNode (lib : Library) (id : Nat) : Option Node := lookupA lib.nodeArena id

def getScc (lib : Library) (id : Nat) : Option SCC := lookupA lib.sccArena id

def modNode (lib : Library) (id : Nat) (f : Node → Node) : Library :=
  { lib with nodeArena := modA lib.nodeArena id f }

def modScc (lib : Library) (id : Nat) (f : SCC → SCC) : Library :=
  { lib with sccArena := modA lib.sccArena id f }

/-- `Object.values(this.nodes)` (lookup failures cannot occur in states built
by the modelled operations and are skipped). -/
def tableNodes (lib : Library) : List Node :=
  lib.nodes.filterMap (fun p => getNode lib p.2)

/-- Node.createAsync ∘ init_frontmatter_and_inherit_tags for a scanned
document: normalise tags (recording dirtiness), load the `[Auto]` line into
`original_inheritTags`, start with empty `inheritTags` and no adjacency. -/
def mkNode (d : Doc) : Node :=
  { fileName := d.fileName
    noteType := d.noteType
    wikiTag := d.wikiTag
    tags := d.tags.map stripHash
    aliases := d.aliases
    inheritTags := []
    originalInheritTags := d.auto
    frontmatterModified := d.tags.any (fun t => hasHashSigil t)
    parents := []
    children := []
    scc := none }

/-- A non-negative rational number as an unreduced fraction; `den` is never
zero in any value the scorer constructs.  JS `number` arithmetic on the
similarity values (all small exact fractions here) is modelled as exact
rational arithmetic; comparisons are by cross-multiplication. -/
structure Frac where
  num : Nat
  den : Nat
deriving Repr, DecidableEq

/-- The rational value of a fraction (for statements relating the code to
the specification's formula). -/
def Frac.toRat (f : Frac) : ℚ := (f.num : ℚ) / (f.den : ℚ)

def fracLt (a b : Frac) : Bool := decide (a.num * b.den < b.num * a.den)

def fracLe (a b : Frac) : Bool := decide (a.num * b.den ≤ b.num * a.den)

/-- interface SimilarityInfo (lines 173-177); `similarity` is `none` when the
JS computation yields NaN. -/
structure SimilarityInfo where
  fm : Node
  similarity : Option Frac
  intersectionSize : Nat
deriving Repr, DecidableEq

/-- JS `Math.max(x, c)` where `x` may be NaN (NaN propagates; on a tie the
value is the same either way). -/
def jsMaxF (x : Option Frac) (c : Frac) : Option Frac :=
  match x with
  | none => none
  | some v => some (if fracLt v c then c else v)

/-- The per-node body of similarityAnalyze (lines 737-748).  When
`min(|setA|, |setB|) = 0` the intersection is necessarily empty and JS
computes `0/0 = NaN`, modelled as `none`. -/
def scoreNode (wikiTag : String) (aliases : List String) (titleEntities : List String)
    (n : Node) : SimilarityInfo :=
  let sA := jsSetOfList titleEntities
  let sB := jsSetOfList (n.tags ++ n.aliases)
  let inter := jsSetOfList (titleEntities.filter (fun x => decide (x ∈ sB)))
  let m := Nat.min sA.length sB.length
  let raw : Option Frac := if m = 0 then none else some ⟨inter.length, m⟩
  let sim :=
    if wikiTag = n.wikiTag then jsMaxF raw ⟨1, 1⟩
    else if decide (wikiTag ∈ n.tags ++ n.aliases) || decide (n.wikiTag ∈ aliases) then
      jsMaxF raw ⟨7, 10⟩
    else raw
  { fm := n, similarity := sim, intersectionSize := inter.length }

/-- The comparator `(a, b) => b.similarity - a.similarity`: `a` may stay in
front of `b` when the comparator is ≤ 0.  A NaN comparator value leaves the
order unspecified in JS; this model keeps the original order then (inert for
the claims: NaN rows are filtered out afterwards). -/
def simBefore (a b : SimilarityInfo) : Bool :=
  match a.similarity, b.similarity with
  | some x, some y => fracLe y x
  | _, _ => true

def sortInsert (x : SimilarityInfo) : List SimilarityInfo → List SimilarityInfo
  | [] => [x]
  | y :: l => if simBefore x y then x :: y :: l else y :: sortInsert x l

/-- `Array.prototype.sort` with the descending-similarity comparator, as a
stable insertion sort. -/
def jsSortDesc : List SimilarityInfo → List SimilarityInfo
  | [] => []
  | x :: l => sortInsert x (jsSortDesc l)

/-- The result filter of similarityAnalyze (line 750):
`similarity > 0.5 || intersection_size > 1` (NaN compares false). -/
def keepInfo (info : SimilarityInfo) : Bool :=
  (match info.similarity with
   | some v => fracLt ⟨1, 2⟩ v
   | none => false) || decide (1 < info.intersectionSize)

/-- WikiLibrary.similarityAnalyze (lines 731-752): score every table node,
sort descending, then filter. -/
def similarityAnalyze (lib : Library) (wikiTag : String) (aliases : List String)
    (titleEntities : List String) : List SimilarityInfo :=
  (jsSortDesc ((tableNodes lib).map (scoreNode wikiTag aliases titleEntities))).filter keepInfo

/-- Node.add_inherit_tags (lines 120-125): add each tag not already among the
node's explicit tags to its inherit-tag set. -/
def addInheritTags (n : Node) (ts : List String) : Node :=
  { n with inheritTags :=
      ts.foldl (fun acc t => if t ∈ n.tags then acc else insertAbsent acc t) n.inheritTags }

/-- Modelled from the spec: utils.equal, imported by wiki_library.ts but
absent from src/ — the structural-equality check on two sets used by the
save-skip test ("byte-for-byte identical (by structural equality)");
modelled as same-elements equality of the two sets. -/
def listSetEq (a b : List String) : Bool :=
  decide (∀ x ∈ a, x ∈ b) && decide (∀ x ∈ b, x ∈ a)

/-- The in-memory effect of Node.save_frontmatter_and_inherit_tags
(lines 133-163); the vault write itself is out of scope.  When nothing
changed the node is untouched; otherwise the dirty flag clears, the freshly
computed inherit tags become the persisted ones and the working set empties
(lines 159-161). -/
def saveNode (n : Node) : Node :=
  if !n.frontmatterModified && listSetEq n.inheritTags n.originalInheritTags then n
  else { n with frontmatterModified := false
                originalInheritTags := n.inheritTags
                inheritTags := [] }

/-- The `[Auto]:` annotation line the save step regenerates from an
inherit-tag set (lines 150-152); `none` when the set is empty (no line is
emitted). -/
def renderAutoLine (inh : List String) : Option String :=
  if 0 < inh.length then
    some ("[Auto]: " ++ String.intercalate " " (inh.map (fun t => "#" ++ t)))
  else none

/-- WikiLibrary.apply_tag_inheritance_rec (lines 448-470): share the
accumulator with every member (optionally saving each), extend a copy of the
accumulator with all member identifiers, recurse into child components.
Fuel bounds the recursion depth (the condensed graph is acyclic in the
states the engine builds). -/
def applyTagInheritanceRec (save : Bool) : Nat → Library → Nat → List String → Library
  | 0, lib, _, _ => lib
  | fuel + 1, lib, sccId, acc =>
    match getScc lib sccId with
    | none => lib
    | some scc =>
      let lib := scc.nodes.foldl (fun l nid =>
        let l := modNode l nid (fun n => addInheritTags n acc)
        if save then modNode l nid saveNode else l) lib
      let acc := scc.nodes.foldl (fun a nid =>
        match getNode lib nid with
        | some n => insertAbsent a n.wikiTag
        | none => a) acc
      scc.children.foldl (fun l cid => applyTagInheritanceRec save fuel l cid acc) lib

/-- The reset loop of apply_tag_inheritance (lines 439-441): every table
node's inherit-tag set becomes empty. -/
def resetInheritTags (lib : Library) : Library :=
  lib.nodes.foldl (fun l p => modNode l p.2 (fun n => { n with inheritTags := [] })) lib

/-- The root filter of apply_tag_inheritance (line 442): components with no
parent components. -/
def rootSccs (lib : Library) : List (String × Nat) :=
  lib.sccs.filter (fun p =>
    match getScc lib p.2 with
    | some scc => decide (scc.parents.length = 0)
    | none => false)

/-- WikiLibrary.apply_tag_inheritance (lines 437-446): clear every table
node's inherit tags, then propagate from every root component (no parent
components). -/
def applyTagInheritance (save : Bool) (fuel : Nat) (lib : Library) : Library :=
  let lib := resetInheritTags lib
  (rootSccs lib).foldl (fun l p => applyTagInheritanceRec save fuel l p.2 []) lib

/-- Intermediate state of the document scan inside init_graph. -/
structure ScanState where
  arena : List (Nat × Node)
  next : Nat
  table : List (String × Nat)
  dups : List (String × List Nat)
deriving Repr, DecidableEq

/-- The duplicate-detection step of add_node_rec (lines 274-298), one
document at a time (the folder recursion is flattened into the scan order of
the document list).  A second claimant of an identifier moves both nodes
into the duplicate table and removes the identifier from the node table. -/
def scanStep (st : ScanState) (d : Doc) : ScanState :=
  let id := st.next
  let arena := st.arena ++ [(id, mkNode d)]
  let w := d.wikiTag
  match lookupA st.dups w with
  | some l =>
    { arena := arena, next := id + 1, table := st.table, dups := setA st.dups w (l ++ [id]) }
  | none =>
    match lookupA st.table w with
    | some old =>
      { arena := arena, next := id + 1, table := delA st.table w,
        dups := setA st.dups w [old, id] }
    | none =>
      { arena := arena, next := id + 1, table := setA st.table w id, dups := st.dups }

def scanDocs (docs : List Doc) : ScanState :=
  docs.foldl scanStep { arena := [], next := 0, table := [], dups := [] }

def libOfScan (st : ScanState) : Library :=
  { nodeArena := st.arena, sccArena := [], nodeNext := st.next, sccNext := 0,
    nodes := st.table, sccs := [], duplicated := st.dups, outerTagRefs := [] }

/-- Recording an unresolved tag in the outer-reference table
(lines 331-336). -/
def addOuterRef (lib : Library) (tag : String) (nid : Nat) : Library :=
  match lookupA lib.outerTagRefs tag with
  | some l => { lib with outerTagRefs := setA lib.outerTagRefs tag (l ++ [nid]) }
  | none => { lib with outerTagRefs := lib.outerTagRefs ++ [(tag, [nid])] }

/-- Edge construction for one node (lines 324-338): each declared tag that
resolves in the node table yields a parent edge (and the reverse child
edge); unresolved tags are recorded as outer references. -/
def linkOneTag (nid : Nat) (l : Library) (tag : String) : Library :=
  match lookupA l.nodes tag with
  | some pid =>
    let l := modNode l nid (fun m => { m with parents := m.parents ++ [pid] })
    modNode l pid (fun m => { m with children := m.children ++ [nid] })
  | none => addOuterRef l tag nid

def linkEdgesForNode (lib : Library) (nid : Nat) : Library :=
  match getNode lib nid with
  | none => lib
  | some n => n.tags.foldl (linkOneTag nid) lib

def linkAllEdges (lib : Library) : Library :=
  lib.nodes.foldl (fun l p => linkEdgesForNode l p.2) lib

/-- The mutable state of the Tarjan pass of init_graph (lines 342-347).  The
stack holds wiki-tags (top first), discovered SCCs are collected into fresh
arena entries plus the pseudo-tag table. -/
structure TarjanState where
  counter : Nat
  stack : List String
  onStack : List String
  indices : List (String × Nat)
  lowLinks : List (String × Nat)
  sccAcc : List (Nat × SCC)
  sccNext : Nat
  sccTable : List (String × Nat)
deriving Repr, DecidableEq

/-- The pop loop generating one SCC (lines 371-379): pop wiki-tags down to
`stop`, collecting the corresponding node ids.  An empty stack would be the
source's "stack underflow" fatal error; it cannot be reached because `stop`
is always on the stack when the loop starts. -/
def popMembers (table : List (String × Nat)) (stop : String) :
    List String → List String → List Nat → List String × List String × List Nat
  | [], onStack, membs => ([], onStack, membs)
  | w :: rest, onStack, membs =>
    let onStack := deleteElement onStack w
    let membs :=
      match lookupA table w with
      | some nid => membs ++ [nid]
      | none => membs
    if w = stop then (rest, onStack, membs)
    else popMembers table stop rest onStack membs

/-- Tarjan strong_connect (lines 348-382).  `lib` is read-only here (the
source mutates no node during SCC discovery).  Fuel bounds recursion depth;
`lib.nodes.length + 1` suffices because recursion only enters unindexed
nodes and every call indexes one. -/
def strongConnect (lib : Library) : Nat → TarjanState → Nat → TarjanState
  | 0, tst, _ => tst
  | fuel + 1, tst, nid =>
    match getNode lib nid with
    | none => tst
    | some n =>
      let w := n.wikiTag
      let tst := { tst with
        indices := setA tst.indices w tst.counter
        lowLinks := setA tst.lowLinks w tst.counter
        counter := tst.counter + 1
        stack := w :: tst.stack
        onStack := insertAbsent tst.onStack w }
      let tst := n.parents.foldl (fun t pid =>
        match getNode lib pid with
        | none => t
        | some p =>
          if !(memA t.indices p.wikiTag) then
            let t := strongConnect lib fuel t pid
            let lw := (lookupA t.lowLinks w).getD 0
            let lp := (lookupA t.lowLinks p.wikiTag).getD 0
            { t with lowLinks := setA t.lowLinks w (Nat.min lw lp) }
          else if p.wikiTag ∈ t.onStack then
            let lw := (lookupA t.lowLinks w).getD 0
            let ip := (lookupA t.indices p.wikiTag).getD 0
            { t with lowLinks := setA t.lowLinks w (Nat.min lw ip) }
          else t) tst
      if lookupA tst.lowLinks w == lookupA tst.indices w then
        let res := popMembers lib.nodes w tst.stack tst.onStack []
        let scc : SCC := { nodes := res.2.2, parents := [], children := [],
                           pseudoWikiTag := w }
        { tst with stack := res.1, onStack := res.2.1
                   sccAcc := tst.sccAcc ++ [(tst.sccNext, scc)]
                   sccTable := setA tst.sccTable w tst.sccNext
                   sccNext := tst.sccNext + 1 }
      else tst

/-- The driver loop over all table nodes (lines 383-387). -/
def tarjanAll (lib : Library) : TarjanState :=
  lib.nodes.foldl (fun tst p =>
    if memA tst.indices p.1 then tst
    else strongConnect lib (lib.nodes.length + 1) tst p.2)
    { counter := 0, stack := [], onStack := [], indices := [], lowLinks := [],
      sccAcc := [], sccNext := lib.sccNext, sccTable := [] }

/-- Assign component back-references to members (lines 392-397). -/
def assignSccs (lib : Library) : Library :=
  lib.sccs.foldl (fun l p =>
    match getScc l p.2 with
    | none => l
    | some scc =>
      scc.nodes.foldl (fun l2 nid =>
        modNode l2 nid (fun n => { n with scc := some p.2 })) l) lib

/-- The per-member parent-SCC list of the condensed-edge derivation
(lines 404-410): push each member parent's component when it differs from
the current component and the current component is not already among that
parent component's own parent list (the source's containment check). -/
def computeParentSccs (lib : Library) (sid : Nat) (n : Node) : List Nat :=
  n.parents.foldl (fun acc pid =>
    match getNode lib pid with
    | none => acc
    | some p =>
      match p.scc with
      | none => acc
      | some psid =>
        match getScc lib psid with
        | none => acc
        | some pscc =>
          if psid ≠ sid ∧ sid ∉ pscc.parents then acc ++ [psid] else acc) []

/-- The per-member child-SCC list (lines 411-417), mirror image of
`computeParentSccs`. -/
def computeChildSccs (lib : Library) (sid : Nat) (n : Node) : List Nat :=
  n.children.foldl (fun acc cid =>
    match getNode lib cid with
    | none => acc
    | some c =>
      match c.scc with
      | none => acc
      | some csid =>
        match getScc lib csid with
        | none => acc
        | some cscc =>
          if csid ≠ sid ∧ sid ∉ cscc.children then acc ++ [csid] else acc) []

/-- Condensed-edge derivation for one component (lines 401-421).  Faithful
to the source: the freshly computed per-member lists are assigned to the
component inside the member loop, so each member overwrites the lists of the
previous one. -/
def deriveEdgesForScc (lib : Library) (sid : Nat) : Library :=
  match getScc lib sid with
  | none => lib
  | some scc =>
    scc.nodes.foldl (fun l nid =>
      match getNode l nid with
      | none => l
      | some n =>
        let ps := computeParentSccs l sid n
        let cs := computeChildSccs l sid n
        modScc l sid (fun s => { s with parents := ps, children := cs })) lib

def deriveAllSccEdges (lib : Library) : Library :=
  lib.sccs.foldl (fun l p => deriveEdgesForScc l p.2) lib

/-- WikiLibrary.init_graph (lines 266-435) over a scanned document list:
scan and deduplicate, build node-level edges and outer references, run
Tarjan, assign components, derive condensed edges. -/
def initGraph (docs : List Doc) : Library :=
  let st := scanDocs docs
  let lib := libOfScan st
  let lib := linkAllEdges lib
  let tst := tarjanAll lib
  let lib := { lib with sccArena := lib.sccArena ++ tst.sccAcc,
                        sccNext := tst.sccNext, sccs := tst.sccTable }
  let lib := assignSccs lib
  deriveAllSccEdges lib

/-- WikiLibrary.initialize (lines 234-241): full graph build followed by
apply_tag_inheritance(save = true).  The propagation fuel exceeds any
possible condensed-graph depth. -/
def fullBuild (docs : List Doc) : Library :=
  applyTagInheritance true (docs.length + 1) (initGraph docs)

/-- The frontmatter addNewEntry writes into the created note (lines
546-554); `date`/`time` are omitted (wall-clock collaborator). -/
structure Frontmatter where
  noteType : String
  aliases : List String
  tags : List String
  wikiTag : String
  description : String
deriving Repr, DecidableEq

def mkFrontmatter (wikiTag : String) (aliases tags : List String)
    (description : String) : Frontmatter :=
  { noteType := "wiki"
    aliases := ("#" ++ wikiTag) :: aliases
    tags := wikiTag :: tags
    wikiTag := wikiTag
    description := description }

/-- How a completed addNewEntry call ended. -/
inductive Outcome where
  | canceled
  | openedExisting
  | createdDuplicate (fm : Frontmatter)
  | createdNew (fm : Frontmatter)
deriving Repr, DecidableEq

/-- The grandparent-tag promotion (lines 607-614): splice each of the
parent's resolvable non-category tags onto the new node's explicit tags when
not already present. -/
def promoteParentTags (lib : Library) (nid : Nat) (parentTags : List String) : Library :=
  parentTags.foldl (fun l ptag =>
    match lookupA l.nodes ptag with
    | none => l
    | some gid =>
      match getNode l gid with
      | none => l
      | some g =>
        if g.noteType ≠ "category" then
          match getNode l nid with
          | none => l
          | some me =>
            if ptag ∈ me.tags then l
            else modNode l nid (fun n => { n with tags := n.tags ++ [ptag] })
        else l) lib

/-- Linking the new node under one resolved tag parent (lines 603-619):
component edges, grandparent-tag promotion, then node edges to every member
of the parent's component. -/
def linkTagParent (lib : Library) (nid newSccId pid : Nat) : Library :=
  match getNode lib pid with
  | none => lib
  | some parent =>
    match parent.scc with
    | none => lib
    | some psid =>
      let lib := modScc lib newSccId (fun s => { s with parents := s.parents ++ [psid] })
      let lib := modScc lib psid (fun s => { s with children := s.children ++ [newSccId] })
      let lib := promoteParentTags lib nid parent.tags
      match getScc lib psid with
      | none => lib
      | some pscc =>
        pscc.nodes.foldl (fun l uid =>
          let l := modNode l nid (fun n => { n with parents := n.parents ++ [uid] })
          modNode l uid (fun n => { n with children := n.children ++ [nid] })) lib

/-- The `for (const tag of newNode.frontmatter.tags)` loop of lines 602-620.
JS iterates the live array, and the promotion step appends to it, so the
loop is modelled by index with the tag list re-read from the arena each
iteration.  The fuel passed by `addNewEntry` exceeds the largest possible
final length of the list. -/
def newEntryTagLoop : Nat → Library → Nat → Nat → Nat → Library
  | 0, lib, _, _, _ => lib
  | fuel + 1, lib, nid, newSccId, i =>
    match getNode lib nid with
    | none => lib
    | some n =>
      match n.tags[i]? with
      | none => lib
      | some tag =>
        let lib' :=
          match lookupA lib.nodes tag with
          | some pid => linkTagParent lib nid newSccId pid
          | none => lib
        newEntryTagLoop fuel lib' nid newSccId (i + 1)

/-- Linking every waiting subscriber of the new identifier (lines 626-634). -/
def linkSubscribers (lib : Library) (nid newSccId : Nat) (subs : List Nat) : Library :=
  subs.foldl (fun l subId =>
    let l := modNode l subId (fun n => { n with parents := n.parents ++ [nid] })
    let l :=
      match getNode l subId with
      | some sub =>
        match sub.scc with
        | some ssid => modScc l ssid (fun s => { s with parents := s.parents ++ [newSccId] })
        | none => l
      | none => l
    let l := modNode l nid (fun n => { n with children := n.children ++ [subId] })
    match getNode l subId with
    | some sub =>
      match sub.scc with
      | some ssid => modScc l newSccId (fun s => { s with children := s.children ++ [ssid] })
      | none => l
    | none => l) lib

/-- State of the component-level Tarjan pass of addNewEntry
(lines 636-675), keyed by pseudo wiki-tags. -/
structure SuperState where
  counter : Nat
  stack : List String
  onStack : List String
  indices : List (String × Nat)
  lowLinks : List (String × Nat)
  superSccs : List (String × List Nat)
deriving Repr, DecidableEq

/-- `w == newSCC.pseudo_wiki_tag ? newSCC : SCCs[w]` (line 668): the new
component is not yet in the component table and is resolved specially. -/
def superResolve (lib : Library) (newTag : String) (newSccId : Nat) (w : String) :
    Option Nat :=
  if w = newTag then some newSccId else lookupA lib.sccs w

/-- The pop loop of the component-level Tarjan (lines 661-671), collecting
resolved component ids.  Empty stack would be the source's "stack underflow"
fatal error (unreachable: the stop tag is on the stack). -/
def superPop (lib : Library) (newTag : String) (newSccId : Nat) (stop : String) :
    List String → List String → List Nat → List String × List String × List Nat
  | [], onStack, membs => ([], onStack, membs)
  | w :: rest, onStack, membs =>
    let onStack := deleteElement onStack w
    let membs :=
      match superResolve lib newTag newSccId w with
      | some sid => membs ++ [sid]
      | none => membs
    if w = stop then (rest, onStack, membs)
    else superPop lib newTag newSccId stop rest onStack membs

/-- super_strong_connect (lines 643-674): Tarjan over the component graph
along component parent edges, rooted at the new singleton component. -/
def superStrongConnect (lib : Library) (newTag : String) (newSccId : Nat) :
    Nat → SuperState → Nat → SuperState
  | 0, st, _ => st
  | fuel + 1, st, sid =>
    match getScc lib sid with
    | none => st
    | some scc =>
      let w := scc.pseudoWikiTag
      let st := { st with
        indices := setA st.indices w st.counter
        lowLinks := setA st.lowLinks w st.counter
        counter := st.counter + 1
        stack := w :: st.stack
        onStack := insertAbsent st.onStack w }
      let st := scc.parents.foldl (fun t psid =>
        match getScc lib psid with
        | none => t
        | some pscc =>
          if !(memA t.indices pscc.pseudoWikiTag) then
            let t := superStrongConnect lib newTag newSccId fuel t psid
            let lw := (lookupA t.lowLinks w).getD 0
            let lp := (lookupA t.lowLinks pscc.pseudoWikiTag).getD 0
            { t with lowLinks := setA t.lowLinks w (Nat.min lw lp) }
          else if pscc.pseudoWikiTag ∈ t.onStack then
            let lw := (lookupA t.lowLinks w).getD 0
            let ip := (lookupA t.indices pscc.pseudoWikiTag).getD 0
            { t with lowLinks := setA t.lowLinks w (Nat.min lw ip) }
          else t) st
      if lookupA st.lowLinks w == lookupA st.indices w then
        let res := superPop lib newTag newSccId w st.stack st.onStack []
        { st with stack := res.1, onStack := res.2.1
                  superSccs := setA st.superSccs w res.2.2 }
      else st

def runSuperTarjan (lib : Library) (newTag : String) (newSccId : Nat) : SuperState :=
  superStrongConnect lib newTag newSccId (lib.sccs.length + 2)
    { counter := 0, stack := [], onStack := [], indices := [], lowLinks := [],
      superSccs := [] } newSccId

/-- Absorbing one member of the super component into the new component
(lines 690-706): concatenate members, redirect external component edges to
the new component, drop the absorbed component from the table.  The child
list is re-read after the parent loop (the source iterates the live
arrays). -/
def absorbOne (newSccId : Nat) (acc : Library × List Nat × List Nat) (sid : Nat) :
    Library × List Nat × List Nat :=
  let lib := acc.1
  let pset := acc.2.1
  let cset := acc.2.2
  if sid = newSccId then acc
  else
    match getScc lib sid with
    | none => acc
    | some scc =>
      let lib := modScc lib newSccId (fun s => { s with nodes := s.nodes ++ scc.nodes })
      let pr := scc.parents.foldl (fun (pr : Library × List Nat) pid =>
        let l := pr.1
        let ps := insertAbsent pr.2 pid
        let l := modScc l pid (fun s => { s with children := deleteElement s.children sid })
        let l := modScc l pid (fun s => { s with children := s.children ++ [newSccId] })
        (l, ps)) (lib, pset)
      let lib := pr.1
      let pset := pr.2
      let childList := ((getScc lib sid).map SCC.children).getD []
      let cr := childList.foldl (fun (cr : Library × List Nat) cid =>
        let l := cr.1
        let cs := insertAbsent cr.2 cid
        let l := modScc l cid (fun s => { s with parents := deleteElement s.parents sid })
        let l := modScc l cid (fun s => { s with parents := s.parents ++ [newSccId] })
        (l, cs)) (lib, cset)
      let lib := cr.1
      let cset := cr.2
      let lib := { lib with sccs := delA lib.sccs scc.pseudoWikiTag }
      (lib, pset, cset)

/-- The component merge of lines 684-708: seed the collected parent/child
sets from the new component's current edges, absorb every other member of
the super component, then overwrite the new component's edges with the
collected sets minus the absorbed components themselves. -/
def mergeSuperScc (lib : Library) (newSccId : Nat) (superScc : List Nat) : Library :=
  let pset0 := jsSetOfList (((getScc lib newSccId).map SCC.parents).getD [])
  let cset0 := jsSetOfList (((getScc lib newSccId).map SCC.children).getD [])
  let res := superScc.foldl (absorbOne newSccId) (lib, pset0, cset0)
  let lib := res.1
  let pset := res.2.1
  let cset := res.2.2
  let lib := modScc lib newSccId
    (fun s => { s with parents := pset.filter (fun x => decide (x ∉ superScc)) })
  modScc lib newSccId
    (fun s => { s with children := cset.filter (fun x => decide (x ∉ superScc)) })

/-- WikiLibrary.addNewEntry (lines 517-729).  `confirm` is the
similarity-confirmation dialog's eventual answer (`none` models no answer /
dismissal, which the caller receives as `null`); file creation, folder
resolution and note opening are collaborator calls outside the graph state.
`utils.error` throws, modelled as `Except.error` with the source's message. -/
def addNewEntry (lib : Library) (title wikiTag : String) (aliases tags : List String)
    (description : String) (titleItems : List String) (confirm : Option Bool) :
    Except String (Library × Outcome) :=
  let sims := similarityAnalyze lib wikiTag aliases titleItems
  if 0 < sims.length && (confirm == none || confirm == some false) then
    .ok (lib, .canceled)
  else if (tableNodes lib).any (fun n => n.fileName == title) then
    .ok (lib, .openedExisting)
  else
    let fm := mkFrontmatter wikiTag aliases tags description
    let newNode : Node :=
      { fileName := title ++ ".md", noteType := "wiki", wikiTag := wikiTag,
        tags := fm.tags.map stripHash, aliases := fm.aliases,
        inheritTags := [], originalInheritTags := [],
        frontmatterModified := fm.tags.any (fun t => hasHashSigil t),
        parents := [], children := [], scc := none }
    let nid := lib.nodeNext
    let lib := { lib with nodeArena := lib.nodeArena ++ [(nid, newNode)],
                          nodeNext := nid + 1 }
    match lookupA lib.nodes wikiTag with
    | some exId =>
      match getNode lib exId with
      | none => .ok (lib, .createdDuplicate fm)
      | some ex =>
        let lib := ex.parents.foldl (fun l pid =>
          modNode l pid (fun n => { n with children := deleteElement n.children exId })) lib
        let lib := ex.children.foldl (fun l cid =>
          modNode l cid (fun n => { n with parents := deleteElement n.parents exId })) lib
        let lib :=
          match ex.scc with
          | none => lib
          | some esid =>
            match getScc lib esid with
            | none => lib
            | some escc =>
              if escc.nodes.length = 1 then
                let lib := escc.parents.foldl (fun l pid =>
                  modScc l pid (fun s => { s with children := deleteElement s.children esid })) lib
                let lib := escc.children.foldl (fun l cid =>
                  modScc l cid (fun s => { s with parents := deleteElement s.parents esid })) lib
                { lib with sccs := delA lib.sccs escc.pseudoWikiTag }
              else modScc lib esid (fun s => { s with nodes := deleteElement s.nodes exId })
        let lib := { lib with nodes := delA lib.nodes wikiTag,
                              duplicated := setA lib.duplicated wikiTag [exId, nid] }
        .ok (lib, .createdDuplicate fm)
    | none =>
      let newSccId := lib.sccNext
      let newScc : SCC := { nodes := [nid], parents := [], children := [],
                            pseudoWikiTag := wikiTag }
      let lib := { lib with sccArena := lib.sccArena ++ [(newSccId, newScc)],
                            sccNext := newSccId + 1 }
      let lib := modNode lib nid (fun n => { n with scc := some newSccId })
      let lib := newEntryTagLoop (fm.tags.length + lib.nodes.length + 1) lib nid newSccId 0
      match lookupA lib.outerTagRefs wikiTag with
      | none =>
        let lib := { lib with nodes := setA lib.nodes wikiTag nid,
                              sccs := setA lib.sccs wikiTag newSccId }
        .ok (lib, .createdNew fm)
      | some subs =>
        let lib := linkSubscribers lib nid newSccId subs
        let lib := { lib with outerTagRefs := delA lib.outerTagRefs wikiTag }
        let sst := runSuperTarjan lib wikiTag newSccId
        if 1 < sst.superSccs.length then
          .error "Error: Algorithm wrong, there are more than one Super SCCs."
        else
          let step : Except String Library :=
            if sst.superSccs.length = 1 then
              match lookupA sst.superSccs wikiTag with
              | some superScc => .ok (mergeSuperScc lib newSccId superScc)
              | none => .error "Error: Algorithm wrong, new wiki_tag not in Super SCC."
            else .ok lib
          match step with
          | .error e => .error e
          | .ok lib =>
            let newInh := (((getScc lib newSccId).map SCC.nodes).getD []).foldl
              (fun a mid =>
                match getNode lib mid with
                | some m => m.inheritTags.foldl insertAbsent a
                | none => a) []
            let lib := applyTagInheritanceRec true (lib.sccs.length + 2) lib newSccId newInh
            let lib := { lib with nodes := setA lib.nodes wikiTag nid,
                                  sccs := setA lib.sccs wikiTag newSccId }
            .ok (lib, .createdNew fm)

/- ---------------------------------------------------------------------
Observation helpers (read-only views used by theorem statements).
--------------------------------------------------------------------- -/

def nodeOfKey (lib : Library) (w : String) : Option Node :=
  (lookupA lib.nodes w).bind (getNode lib)

def inhOfKey (lib : Library) (w : String) : Option (List String) :=
  (nodeOfKey lib w).map Node.inheritTags

def tagsOfKey (lib : Library) (w : String) : Option (List String) :=
  (nodeOfKey lib w).map Node.tags

def parentsOfKey (lib : Library) (w : String) : Option (List Nat) :=
  (nodeOfKey lib w).map Node.parents

def sccOfPseudo (lib : Library) (w : String) : Option SCC :=
  (lookupA lib.sccs w).bind (getScc lib)

def membersOfPseudo (lib : Library) (w : String) : Option (List Nat) :=
  (sccOfPseudo lib w).map SCC.nodes

def resultLib (r : Except String (Library × Outcome)) (fallback : Library) : Library :=
  match r with
  | .ok p => p.1
  | .error _ => fallback

/-- The inherit-tag set stored at arena id `id`. -/
def inhAt (lib : Library) (id : Nat) : Option (List String) :=
  (getNode lib id).map Node.inheritTags

/-- The disjointness invariant at one arena id: no identifier occurs in both
the node's inherit-tag set and its explicit tag list. -/
def disjointAt (lib : Library) (id : Nat) : Prop :=
  match getNode lib id with
  | some n => ∀ t ∈ n.inheritTags, t ∉ n.tags
  | none => True

instance (lib : Library) (id : Nat) : Decidable (disjointAt lib id) := by
  unfold disjointAt
  cases getNode lib id <;> infer_instance

/-- Node-level disjointness of the inherit-tag set from the explicit tags. -/
def disjointNode (n : Node) : Prop := ∀ t ∈ n.inheritTags, t ∉ n.tags

/-- A node with its inherit-tag set erased: the part of a node the
propagator never changes. -/
def eraseInh (n : Node) : Node := { n with inheritTags := [] }

/-- A node with its component back-reference forgotten (the only field the
`assign sccs` pass writes). -/
def eraseScc (n : Node) : Node := { n with scc := none }

/-- A node with its inheritance bookkeeping forgotten: the three fields the
tag-inheritance pass (with or without saving) may write.  Everything the
graph structure consists of — tags, aliases, identifiers, edges, the
component back-reference — survives in the core. -/
def nodeCore (n : Node) : Node :=
  { n with inheritTags := [], originalInheritTags := [], frontmatterModified := false }

/-- The propagation-invariant part of the library state: every node with
its inherit-tag set erased, everything else untouched. -/
def shape (lib : Library) : Library :=
  { lib with nodeArena := lib.nodeArena.map (fun p => (p.1, eraseInh p.2)) }

/-- Two states that agree except possibly on inherit-tag sets, and agree on
the inherit-tag set stored at `id`. -/
def InhEquivAt (id : Nat) (s₁ s₂ : Library) : Prop :=
  shape s₁ = shape s₂ ∧ inhAt s₁ id = inhAt s₂ id

/-- Soundness of the condensed parent adjacency: every recorded parent edge
of a component joins a distinct component and is induced by a node-level
edge from one of its members. -/
def SoundParents (lib : Library) : Prop :=
  ∀ sid scc, getScc lib sid = some scc → ∀ B ∈ scc.parents,
    B ≠ sid ∧ ∃ nid ∈ scc.nodes, ∃ n, getNode lib nid = some n ∧
      ∃ pid ∈ n.parents, ∃ p, getNode lib pid = some p ∧ p.scc = some B

/-- Mirror of `SoundParents` for the child adjacency: every recorded
component-level child edge joins two distinct components and is induced by a
node-level child edge from some member. -/
def SoundChildren (lib : Library) : Prop :=
  ∀ sid scc, getScc lib sid = some scc → ∀ B ∈ scc.children,
    B ≠ sid ∧ ∃ nid ∈ scc.nodes, ∃ n, getNode lib nid = some n ∧
      ∃ cid ∈ n.children, ∃ c, getNode lib cid = some c ∧ c.scc = some B

/-- All component records in a list still carry empty adjacency (the state
in which Tarjan creates them). -/
def FreshSccs (l : List (Nat × SCC)) : Prop :=
  ∀ p ∈ l, (p.2 : SCC).parents = [] ∧ (p.2 : SCC).children = []

/-- The documents of a scan that claim the identifier `T`. -/
def tdocs (T : String) (ds : List Doc) : List Doc :=
  ds.filter (fun d => decide (d.wikiTag = T))

/-- Well-formedness of the scan state: arena keys are below the allocation
counter, table and duplicate entries point at arena nodes carrying their
key as identifier, and no identifier is simultaneously in the node table
and the duplicate table. -/
def GoodScan (st : ScanState) : Prop :=
  (∀ p ∈ st.arena, (p : Nat × Node).1 < st.next) ∧
  (∀ w id, lookupA st.table w = some id →
    ∃ n, lookupA st.arena id = some n ∧ n.wikiTag = w) ∧
  (∀ w ids, lookupA st.dups w = some ids →
    ∀ id ∈ ids, ∃ n, lookupA st.arena id = some n ∧ n.wikiTag = w) ∧
  (∀ w, lookupA st.table w ≠ none → lookupA st.dups w = none) ∧
  (st.table.map Prod.fst).Nodup

/-- How the scan state tracks one identifier `T`, by the number of scanned
documents claiming it: absent; unique (in the node table); or duplicated
(all claimants in the duplicate table, in scan order, none in the node
table). -/
def TCharScan (T : String) (ds : List Doc) (st : ScanState) : Prop :=
  (tdocs T ds = [] → lookupA st.table T = none ∧ lookupA st.dups T = none) ∧
  (∀ d₀, tdocs T ds = [d₀] → lookupA st.dups T = none ∧
    ∃ id, lookupA st.table T = some id ∧ id < st.next ∧
      lookupA st.arena id = some (mkNode d₀)) ∧
  (2 ≤ (tdocs T ds).length → lookupA st.table T = none ∧
    ∃ ids, lookupA st.dups T = some ids ∧
      ids.map (fun i => lookupA st.arena i) =
        (tdocs T ds).map (fun d => some (mkNode d)) ∧
      ∀ i ∈ ids, i < st.next)

instance {ε α : Type} [DecidableEq ε] [DecidableEq α] : DecidableEq (Except ε α) := fun x y =>
  match x, y with
  | .error a, .error b =>
    if h : a = b then isTrue (by rw [h]) else isFalse (by simp [h])
  | .error _, .ok _ => isFalse (fun h => Except.noConfusion h)
  | .ok _, .error _ => isFalse (fun h => Except.noConfusion h)
  | .ok a, .ok b =>
    if h : a = b then isTrue (by rw [h]) else isFalse (by simp [h])

/- ---------------------------------------------------------------------
Spec-side similarity (refinement counterpart for the scorer claim).
These definitions follow the specification text of §4.3, not the source:
similarity = |titleEntities ∩ (tags ∪ aliases)| / min of the set sizes,
overridden to exactly 1 on identifier equality, raised to at least 0.7 on a
cross-reference, with every quantity a genuine rational.
--------------------------------------------------------------------- -/

def specIntersectionSize (titleEntities : List String) (n : Node) : Nat :=
  (jsSetOfList (titleEntities.filter
    (fun x => decide (x ∈ jsSetOfList (n.tags ++ n.aliases))))).length

def specSimilarity (wikiTag : String) (aliases : List String)
    (titleEntities : List String) (n : Node) : ℚ :=
  let base : ℚ := (specIntersectionSize titleEntities n : ℚ) /
    (Nat.min (jsSetOfList titleEntities).length
      (jsSetOfList (n.tags ++ n.aliases)).length : ℚ)
  if wikiTag = n.wikiTag then 1
  else if wikiTag ∈ n.tags ++ n.aliases ∨ n.wikiTag ∈ aliases then max base (7 / 10)
  else base

def specKeep (wikiTag : String) (aliases : List String)
    (titleEntities : List String) (n : Node) : Prop :=
  (1 : ℚ) / 2 < specSimilarity wikiTag aliases titleEntities n ∨
    1 < specIntersectionSize titleEntities n

instance (wikiTag : String) (aliases titleEntities : List String) (n : Node) :
    Decidable (specKeep wikiTag aliases titleEntities n) := by
  unfold specKeep; infer_instance

/- ---------------------------------------------------------------------
Concrete example states used by counterexamples and witnesses.
--------------------------------------------------------------------- -/

/-- The empty library (full build over no documents). -/
def emptyLib : Library := fullBuild []

/-- Scenario A, first step, run purely incrementally: insert `X` with user
tags `[Y]` into the empty library. -/
def c1AfterX : Library :=
  resultLib (addNewEntry emptyLib "X" "X" [] ["Y"] "" [] none) emptyLib

/-- Scenario A, second step, still purely incrementally: insert `Y` with
user tags `[X]`. -/
def c1AfterXY : Library :=
  resultLib (addNewEntry c1AfterX "Y" "Y" [] ["X"] "" [] none) c1AfterX

/-- A note `X` that declares the not-yet-existing tag `Y`. -/
def c1DocX : Doc :=
  { fileName := "X.md", noteType := "wiki", wikiTag := "X",
    tags := ["Y"], aliases := ["#X"], auto := [] }

/-- Full build over `c1DocX`: the outer-reference table holds `Y -> [X]`. -/
def c1PreLib : Library := fullBuild [c1DocX]

/-- Inserting `Y` with tags `[X]` into `c1PreLib`. -/
def c1Merged : Library :=
  resultLib (addNewEntry c1PreLib "Y" "Y" [] ["X"] "" [] none) c1PreLib

/-- A library with one node whose tag list is `[t]`; the candidate below
scores similarity 1 against it, so the confirmation dialog is shown. -/
def c2Node : Node :=
  { fileName := "T.md", noteType := "wiki", wikiTag := "T", tags := ["t"],
    aliases := [], inheritTags := [], originalInheritTags := [],
    frontmatterModified := false, parents := [], children := [], scc := none }

def c2Lib : Library :=
  { nodeArena := [(0, c2Node)], sccArena := [], nodeNext := 1, sccNext := 0,
    nodes := [("T", 0)], sccs := [], duplicated := [], outerTagRefs := [] }

/-- Documents for the condensed-edge duplication counterexample: `B` and `C`
form a two-node cycle, `A` declares both as parents. -/
def c3DocB : Doc :=
  { fileName := "B.md", noteType := "wiki", wikiTag := "B", tags := ["C"],
    aliases := [], auto := [] }

def c3DocC : Doc :=
  { fileName := "C.md", noteType := "wiki", wikiTag := "C", tags := ["B"],
    aliases := [], auto := [] }

def c3DocA : Doc :=
  { fileName := "A.md", noteType := "wiki", wikiTag := "A", tags := ["B", "C"],
    aliases := [], auto := [] }

def c3DupLib : Library := initGraph [c3DocB, c3DocC, c3DocA]

/-- Documents for the missing-condensed-edge counterexample: `B2` and `C2`
form a cycle whose non-root member `C2` alone has the external parent `D`. -/
def c3DocD : Doc :=
  { fileName := "D.md", noteType := "wiki", wikiTag := "D", tags := [],
    aliases := [], auto := [] }

def c3DocB2 : Doc :=
  { fileName := "B2.md", noteType := "wiki", wikiTag := "B2", tags := ["C2"],
    aliases := [], auto := [] }

def c3DocC2 : Doc :=
  { fileName := "C2.md", noteType := "wiki", wikiTag := "C2", tags := ["B2", "D"],
    aliases := [], auto := [] }

def c3MissLib : Library := initGraph [c3DocD, c3DocB2, c3DocC2]

/-- Scenario C documents: `A` declares `[B]`, `B` declares `[C]`, `C`
declares nothing. -/
def c4DocA : Doc :=
  { fileName := "A.md", noteType := "wiki", wikiTag := "A", tags := ["B"],
    aliases := [], auto := [] }

def c4DocB : Doc :=
  { fileName := "B.md", noteType := "wiki", wikiTag := "B", tags := ["C"],
    aliases := [], auto := [] }

def c4DocC : Doc :=
  { fileName := "C.md", noteType := "wiki", wikiTag := "C", tags := [],
    aliases := [], auto := [] }

/-- Full graph build over scenario C followed by the propagator (the pure
in-memory pass; `save` only archives the same sets into the persisted
annotation). -/
def c4Lib : Library := applyTagInheritance false 4 (initGraph [c4DocA, c4DocB, c4DocC])

/-- A node with no tags and no aliases: its tag∪alias set is empty, so the
similarity quotient is 0/0 = NaN. -/
def c7Node : Node :=
  { fileName := "X.md", noteType := "wiki", wikiTag := "X", tags := [],
    aliases := [], inheritTags := [], originalInheritTags := [],
    frontmatterModified := false, parents := [], children := [], scc := none }

def c7Lib : Library :=
  { nodeArena := [(0, c7Node)], sccArena := [], nodeNext := 1, sccNext := 0,
    nodes := [("X", 0)], sccs := [], duplicated := [], outerTagRefs := [] }

/-- A small well-behaved library for the amended-scorer witness. -/
def c7WitNode : Node :=
  { fileName := "W.md", noteType := "wiki", wikiTag := "W", tags := ["t1", "t2"],
    aliases := [], inheritTags := [], originalInheritTags := [],
    frontmatterModified := false, parents := [], children := [], scc := none }

def c7WitLib : Library :=
  { nodeArena := [(0, c7WitNode)], sccArena := [], nodeNext := 1, sccNext := 0,
    nodes := [("W", 0)], sccs := [], duplicated := [], outerTagRefs := [] }

/-- Scenario D documents: two notes claim the identifier `Dup`, a third note
references it. -/
def c8Doc1 : Doc :=
  { fileName := "d1.md", noteType := "wiki", wikiTag := "Dup", tags := ["Other"],
    aliases := [], auto := [] }

def c8Doc2 : Doc :=
  { fileName := "d2.md", noteType := "wiki", wikiTag := "Dup", tags := [],
    aliases := ["x"], auto := [] }

def c8DocO : Doc :=
  { fileName := "o.md", noteType := "wiki", wikiTag := "Other", tags := ["Dup"],
    aliases := [], auto := [] }

/-- The library addNewEntry produces when creating the entry `T` (title `t`)
in the empty library. -/
def c10Lib2 : Library :=
  { nodeArena := [(0,
      { fileName := "t.md", noteType := "wiki", wikiTag := "T", tags := ["T"],
        aliases := ["#T"], inheritTags := [], originalInheritTags := [],
        frontmatterModified := false, parents := [], children := [], scc := some 0 })],
    sccArena := [(0, { nodes := [0], parents := [], children := [], pseudoWikiTag := "T" })],
    nodeNext := 1, sccNext := 1, nodes := [("T", 0)], sccs := [("T", 0)],
    duplicated := [], outerTagRefs := [] }

/-- Well-formed pre-state for the super-SCC failure: `W` is a plain note,
`X` declares the missing `Y` (outer reference) and the existing `W`. -/
def c9DocW : Doc :=
  { fileName := "W.md", noteType := "wiki", wikiTag := "W", tags := [],
    aliases := [], auto := [] }

def c9DocX : Doc :=
  { fileName := "X.md", noteType := "wiki", wikiTag := "X", tags := ["Y", "W"],
    aliases := [], auto := [] }

def c9Lib : Library := fullBuild [c9DocW, c9DocX]

/- =====================================================================
Theorems.  First, basic lemmas about the dictionary and arena operations.
===================================================================== -/

theorem lookupA_setA_self {κ α : Type} [DecidableEq κ] (l : List (κ × α)) (k : κ) (v : α) :
    lookupA (setA l k v) k = some v := by
  induction l with
  | nil => simp [setA, lookupA]
  | cons p rest ih =>
    obtain ⟨k', w⟩ := p
    by_cases h : k = k' <;> simp [setA, lookupA, h, ih]

theorem lookupA_setA_ne {κ α : Type} [DecidableEq κ] (l : List (κ × α)) (k k' : κ) (v : α)
    (h : k' ≠ k) : lookupA (setA l k v) k' = lookupA l k' := by
  induction l with
  | nil => simp [setA, lookupA, h]
  | cons p rest ih =>
    obtain ⟨k'', w⟩ := p
    by_cases h2 : k = k''
    · subst h2
      simp [setA, lookupA, h]
    · by_cases h3 : k' = k'' <;> simp [setA, lookupA, h2, h3, ih]

theorem lookupA_modA {κ α : Type} [DecidableEq κ] (l : List (κ × α)) (k k' : κ) (f : α → α) :
    lookupA (modA l k f) k' =
      if k' = k then (lookupA l k).map f else lookupA l k' := by
  unfold modA
  cases h : lookupA l k with
  | none =>
    by_cases hk : k' = k <;> simp [hk, h]
  | some v =>
    by_cases hk : k' = k
    · subst hk
      simp [h, lookupA_setA_self]
    · simp [hk, lookupA_setA_ne l k k' (f v) hk]

theorem lookupA_map {κ α β : Type} [DecidableEq κ] (g : α → β) (l : List (κ × α)) (k : κ) :
    lookupA (l.map (fun p => (p.1, g p.2))) k = (lookupA l k).map g := by
  induction l with
  | nil => simp [lookupA]
  | cons p rest ih =>
    obtain ⟨k', v⟩ := p
    by_cases h : k = k' <;> simp [lookupA, h, ih]

theorem lookupA_mem_values {κ α : Type} [DecidableEq κ] (l : List (κ × α)) (k : κ) (v : α)
    (h : lookupA l k = some v) : v ∈ l.map Prod.snd := by
  induction l with
  | nil => simp [lookupA] at h
  | cons p rest ih =>
    obtain ⟨k', w⟩ := p
    by_cases hk : k = k'
    · simp [lookupA, hk] at h
      simp [h]
    · simp [lookupA, hk] at h
      simpa using Or.inr (ih h)

theorem getNode_modNode (lib : Library) (id id' : Nat) (f : Node → Node) :
    getNode (modNode lib id f) id' =
      if id' = id then (getNode lib id).map f else getNode lib id' :=
  lookupA_modA lib.nodeArena id id' f

theorem getScc_modScc (lib : Library) (id id' : Nat) (f : SCC → SCC) :
    getScc (modScc lib id f) id' =
      if id' = id then (getScc lib id).map f else getScc lib id' :=
  lookupA_modA lib.sccArena id id' f

theorem getNode_modScc (lib : Library) (id id' : Nat) (f : SCC → SCC) :
    getNode (modScc lib id f) id' = getNode lib id' := rfl

theorem getScc_modNode (lib : Library) (id id' : Nat) (f : Node → Node) :
    getScc (modNode lib id f) id' = getScc lib id' := rfl

theorem modNode_nodes (lib : Library) (id : Nat) (f : Node → Node) :
    (modNode lib id f).nodes = lib.nodes := rfl

theorem modNode_sccs (lib : Library) (id : Nat) (f : Node → Node) :
    (modNode lib id f).sccs = lib.sccs := rfl

theorem modNode_sccArena (lib : Library) (id : Nat) (f : Node → Node) :
    (modNode lib id f).sccArena = lib.sccArena := rfl

/-- Any predicate preserved by every step is preserved by a fold. -/
theorem foldl_preserve {σ α : Type} {P : σ → Prop} {f : σ → α → σ}
    (h : ∀ s a, P s → P (f s a)) :
    ∀ (l : List α) (s : σ), P s → P (l.foldl f s) := by
  intro l
  induction l with
  | nil => intro s hs; exact hs
  | cons a l ih => intro s hs; exact ih (f s a) (h s a hs)

/-- Any relation respected by every step relates the folds of related
starting states. -/
theorem foldl_congr_rel {σ α : Type} {R : σ → σ → Prop} {f : σ → α → σ}
    (h : ∀ s₁ s₂ a, R s₁ s₂ → R (f s₁ a) (f s₂ a)) :
    ∀ (l : List α) (s₁ s₂ : σ), R s₁ s₂ → R (l.foldl f s₁) (l.foldl f s₂) := by
  intro l
  induction l with
  | nil => intro s₁ s₂ hs; exact hs
  | cons a l ih => intro s₁ s₂ hs; exact ih (f s₁ a) (f s₂ a) (h s₁ s₂ a hs)

theorem shape_nodes (lib : Library) : (shape lib).nodes = lib.nodes := rfl

theorem shape_sccs (lib : Library) : (shape lib).sccs = lib.sccs := rfl

theorem shape_sccArena (lib : Library) : (shape lib).sccArena = lib.sccArena := rfl

theorem getNode_shape (lib : Library) (id : Nat) :
    getNode (shape lib) id = (getNode lib id).map eraseInh :=
  lookupA_map eraseInh lib.nodeArena id

theorem getScc_shape (lib : Library) (id : Nat) :
    getScc (shape lib) id = getScc lib id := rfl

/-- Two states with equal shape agree on every projection of a node that
ignores the inherit-tag set. -/
theorem shapeEq_nodeProj {β : Type} (g : Node → β) (hg : ∀ n, g (eraseInh n) = g n)
    {s₁ s₂ : Library} (h : shape s₁ = shape s₂) (id : Nat) :
    (getNode s₁ id).map g = (getNode s₂ id).map g := by
  have h1 := congrArg (fun l => getNode l id) h
  simp only [getNode_shape] at h1
  have h2 := congrArg (fun o => Option.map g o) h1
  have hge : g ∘ eraseInh = g := funext hg
  simpa [Option.map_map, hge] using h2

/- ---------------------------------------------------------------------
Disjointness of inherited and explicit tags (claim C5).
--------------------------------------------------------------------- -/

theorem disjointAt_iff (lib : Library) (id : Nat) :
    disjointAt lib id ↔ ∀ n, getNode lib id = some n → disjointNode n := by
  unfold disjointAt disjointNode
  cases h : getNode lib id with
  | none => simp
  | some n => simp

theorem mem_insertAbsent {α : Type} [DecidableEq α] (l : List α) (x t : α)
    (h : t ∈ insertAbsent l x) : t ∈ l ∨ t = x := by
  unfold insertAbsent at h
  by_cases hm : x ∈ l
  · simp [hm] at h; exact Or.inl h
  · simp [hm] at h; exact h

theorem mem_addInh_foldl (tags0 : List String) (ts : List String) :
    ∀ (start : List String) (t : String),
      t ∈ ts.foldl (fun acc u => if u ∈ tags0 then acc else insertAbsent acc u) start →
      t ∈ start ∨ t ∉ tags0 := by
  induction ts with
  | nil => intro start t h; exact Or.inl h
  | cons u ts ih =>
    intro start t h
    rw [List.foldl_cons] at h
    by_cases hu : u ∈ tags0
    · rw [if_pos hu] at h
      exact ih start t h
    · rw [if_neg hu] at h
      rcases ih _ t h with h2 | h2
      · rcases mem_insertAbsent start u t h2 with h3 | h3
        · exact Or.inl h3
        · subst h3; exact Or.inr hu
      · exact Or.inr h2

theorem addInheritTags_disjoint (n : Node) (ts : List String) (h : disjointNode n) :
    disjointNode (addInheritTags n ts) := by
  intro t ht
  rcases mem_addInh_foldl n.tags ts n.inheritTags t ht with h2 | h2
  · exact h t h2
  · exact h2

theorem saveNode_disjoint (n : Node) (h : disjointNode n) : disjointNode (saveNode n) := by
  unfold saveNode
  split
  · exact h
  · intro t ht
    simp at ht

theorem disjointAt_modNode (lib : Library) (id id' : Nat) (f : Node → Node)
    (hf : ∀ n, disjointNode n → disjointNode (f n))
    (h : disjointAt lib id') : disjointAt (modNode lib id f) id' := by
  rw [disjointAt_iff] at h ⊢
  intro n hn
  rw [getNode_modNode] at hn
  by_cases hid : id' = id
  · rw [if_pos hid] at hn
    cases hg : getNode lib id with
    | none => rw [hg] at hn; simp at hn
    | some m =>
      rw [hg] at hn
      simp at hn
      subst hn
      exact hf m (h m (hid ▸ hg))
  · rw [if_neg hid] at hn
    exact h n hn

theorem rec_preserves_disjointAt (save : Bool) :
    ∀ (fuel : Nat) (lib : Library) (sccId : Nat) (acc : List String) (id : Nat),
      disjointAt lib id →
      disjointAt (applyTagInheritanceRec save fuel lib sccId acc) id := by
  intro fuel
  induction fuel with
  | zero => intro lib _ _ _ h; exact h
  | succ fuel ih =>
    intro lib sccId acc id h
    unfold applyTagInheritanceRec
    cases hscc : getScc lib sccId with
    | none => exact h
    | some scc =>
      have hmem : disjointAt (scc.nodes.foldl (fun l nid =>
          let l := modNode l nid (fun n => addInheritTags n acc)
          if save then modNode l nid saveNode else l) lib) id := by
        refine foldl_preserve (P := fun l => disjointAt l id) ?_ scc.nodes lib h
        intro s nid hs
        have h1 : disjointAt (modNode s nid (fun n => addInheritTags n acc)) id :=
          disjointAt_modNode s nid id _ (fun n hn => addInheritTags_disjoint n acc hn) hs
        by_cases hsave : save = true
        · simpa [hsave] using
            disjointAt_modNode _ nid id saveNode saveNode_disjoint h1
        · have hs2 : save = false := by
            cases save
            · rfl
            · exact absurd rfl hsave
          simpa [hs2] using h1
      exact foldl_preserve (P := fun l => disjointAt l id)
        (fun s cid hs => ih s cid _ id hs) scc.children _ hmem

theorem reset_fold_pres_cleared (clear : Node → Node)
    (hcl : ∀ n, (clear n).inheritTags = []) (ps : List (String × Nat)) (id : Nat) :
    ∀ (s : Library),
      (∀ n, getNode s id = some n → n.inheritTags = []) →
      ∀ n, getNode (ps.foldl (fun l p => modNode l p.2 clear) s) id = some n →
        n.inheritTags = [] := by
  refine foldl_preserve ?_ ps
  intro s p hs n hn
  rw [getNode_modNode] at hn
  by_cases hid : id = p.2
  · rw [if_pos hid] at hn
    cases hg : getNode s p.2 with
    | none => rw [hg] at hn; simp at hn
    | some m => rw [hg] at hn; simp at hn; rw [← hn]; exact hcl m
  · rw [if_neg hid] at hn
    exact hs n hn

theorem reset_fold_clears (clear : Node → Node)
    (hcl : ∀ n, (clear n).inheritTags = []) :
    ∀ (ps : List (String × Nat)) (s : Library) (id : Nat), id ∈ ps.map Prod.snd →
      ∀ n, getNode (ps.foldl (fun l p => modNode l p.2 clear) s) id = some n →
        n.inheritTags = [] := by
  intro ps
  induction ps with
  | nil => intro s id hid; simp at hid
  | cons p ps ih =>
    intro s id hid n hn
    rw [List.foldl_cons] at hn
    by_cases hidp : id = p.2
    · refine reset_fold_pres_cleared clear hcl ps id (modNode s p.2 clear) ?_ n hn
      intro m hm
      rw [getNode_modNode, if_pos hidp] at hm
      cases hg : getNode s p.2 with
      | none => rw [hg] at hm; simp at hm
      | some m2 => rw [hg] at hm; simp at hm; rw [← hm]; exact hcl m2
    · have : id ∈ ps.map Prod.snd := by
        simp at hid
        rcases hid with h1 | h1
        · exact absurd h1 hidp
        · simpa using h1
      exact ih (modNode s p.2 clear) id this n hn

theorem reset_nodes (lib : Library) : (resetInheritTags lib).nodes = lib.nodes := by
  unfold resetInheritTags
  refine foldl_preserve (P := fun l => l.nodes = lib.nodes) ?_ lib.nodes lib rfl
  intro s p hs
  rw [modNode_nodes]
  exact hs

theorem rec_nodes (save : Bool) :
    ∀ (fuel : Nat) (lib : Library) (sccId : Nat) (acc : List String),
      (applyTagInheritanceRec save fuel lib sccId acc).nodes = lib.nodes := by
  intro fuel
  induction fuel with
  | zero => intro lib _ _; rfl
  | succ fuel ih =>
    intro lib sccId acc
    unfold applyTagInheritanceRec
    cases hscc : getScc lib sccId with
    | none => rfl
    | some scc =>
      have h1 : ∀ (s : Library), (scc.nodes.foldl (fun l nid =>
          let l := modNode l nid (fun n => addInheritTags n acc)
          if save then modNode l nid saveNode else l) s).nodes = s.nodes := by
        intro s
        refine foldl_preserve (P := fun l => l.nodes = s.nodes) ?_ scc.nodes s rfl
        intro s2 nid hs
        by_cases hsave : save = true <;> simp [hsave, modNode_nodes] <;> exact hs
      have h2 : ∀ (cl : List Nat) (s : Library) a,
          (cl.foldl (fun l cid => applyTagInheritanceRec save fuel l cid a) s).nodes
            = s.nodes := by
        intro cl
        induction cl with
        | nil => intro s a; rfl
        | cons c cl ih2 =>
          intro s a
          rw [List.foldl_cons, ih2, ih]
      rw [h2, h1]

theorem applyTagInheritance_nodes (save : Bool) (fuel : Nat) (lib : Library) :
    (applyTagInheritance save fuel lib).nodes = lib.nodes := by
  unfold applyTagInheritance
  have h2 : ∀ (rs : List (String × Nat)) (s : Library),
      (rs.foldl (fun l p => applyTagInheritanceRec save fuel l p.2 []) s).nodes
        = s.nodes := by
    intro rs
    induction rs with
    | nil => intro s; rfl
    | cons r rs ih =>
      intro s
      rw [List.foldl_cons, ih, rec_nodes]
  rw [h2, reset_nodes]

/-- Claim C5: after any completed run of the propagator — the full
apply_tag_inheritance pass (unconditionally), or the scoped
apply_tag_inheritance_rec pass used during incremental insertion (which
preserves the invariant wherever it already held) — every node in the node
table has an inherit-tag set disjoint from its explicit tags. -/
theorem propagator_disjointness (save : Bool) (fuel : Nat) (lib : Library) :
    (∀ w id, lookupA (applyTagInheritance save fuel lib).nodes w = some id →
        disjointAt (applyTagInheritance save fuel lib) id) ∧
    (∀ sccId acc id, disjointAt lib id →
        disjointAt (applyTagInheritanceRec save fuel lib sccId acc) id) := by
  constructor
  · intro w id hw
    rw [applyTagInheritance_nodes, ← reset_nodes] at hw
    have hmem : id ∈ (resetInheritTags lib).nodes.map Prod.snd :=
      lookupA_mem_values _ w id hw
    have hreset : disjointAt (resetInheritTags lib) id := by
      rw [disjointAt_iff]
      intro n hn
      have : n.inheritTags = [] := by
        rw [reset_nodes] at hmem
        exact reset_fold_clears _ (fun n => rfl) lib.nodes lib id hmem n hn
      intro t ht
      rw [this] at ht
      exact absurd ht (List.not_mem_nil t)
    unfold applyTagInheritance
    exact foldl_preserve (fun s p hs => rec_preserves_disjointAt save fuel s p.2 [] id hs)
      (rootSccs (resetInheritTags lib)) (resetInheritTags lib) hreset
  · intro sccId acc id h
    exact rec_preserves_disjointAt save fuel lib sccId acc id h

/-- Witness for C5: the scenario-C build, both for the full pass (node `A`,
arena id 0) and for a scoped re-propagation over it. -/
theorem propagator_disjointness_witness :
    disjointAt c4Lib 0 ∧ disjointAt (applyTagInheritanceRec false 4 c4Lib 0 ["q"]) 0 :=
  ⟨(propagator_disjointness false 4 (initGraph [c4DocA, c4DocB, c4DocC])).1 "A" 0 (by decide),
   (propagator_disjointness false 4 c4Lib).2 0 ["q"] 0 (by decide)⟩

/- ---------------------------------------------------------------------
Idempotence of propagation (claim C6).
--------------------------------------------------------------------- -/

theorem setA_lookup_self {κ α : Type} [DecidableEq κ] (l : List (κ × α)) (k : κ) (v : α)
    (h : lookupA l k = some v) : setA l k v = l := by
  induction l with
  | nil => simp [lookupA] at h
  | cons p rest ih =>
    obtain ⟨k', w⟩ := p
    by_cases hk : k = k'
    · subst hk
      simp [lookupA] at h
      simp [setA, h]
    · simp [lookupA, hk] at h
      simp [setA, hk, ih h]

/-- A node update that does not touch the inherit-tag-erased part of any
node leaves the shape unchanged. -/
theorem shape_modNode_inhOnly (lib : Library) (id : Nat) (f : Node → Node)
    (hf : ∀ n, eraseInh (f n) = eraseInh n) :
    shape (modNode lib id f) = shape lib := by
  unfold shape modNode modA
  cases h : lookupA lib.nodeArena id with
  | none => rfl
  | some v =>
    have h1 : (setA lib.nodeArena id (f v)).map (fun p => (p.1, eraseInh p.2)) =
        setA (lib.nodeArena.map (fun p => (p.1, eraseInh p.2))) id (eraseInh (f v)) := by
      clear h
      induction lib.nodeArena with
      | nil => simp [setA]
      | cons p rest ih =>
        obtain ⟨k, w⟩ := p
        by_cases hk : id = k <;> simp [setA, hk, ih]
    have h2 : lookupA (lib.nodeArena.map (fun p => (p.1, eraseInh p.2))) id =
        some (eraseInh v) := by
      rw [lookupA_map, h]
      rfl
    simp only []
    rw [h1, hf v, setA_lookup_self _ _ _ h2]

theorem eraseInh_addInheritTags (n : Node) (acc : List String) :
    eraseInh (addInheritTags n acc) = eraseInh n := rfl

theorem shape_reset (lib : Library) : shape (resetInheritTags lib) = shape lib := by
  unfold resetInheritTags
  refine foldl_preserve (P := fun l => shape l = shape lib) ?_ lib.nodes lib rfl
  intro s p hs
  rw [shape_modNode_inhOnly s p.2 (fun n => { n with inheritTags := [] }) (fun n => rfl)]
  exact hs

theorem shape_rec (fuel : Nat) :
    ∀ (lib : Library) (sccId : Nat) (acc : List String),
      shape (applyTagInheritanceRec false fuel lib sccId acc) = shape lib := by
  induction fuel with
  | zero => intro lib _ _; rfl
  | succ fuel ih =>
    intro lib sccId acc
    unfold applyTagInheritanceRec
    cases hscc : getScc lib sccId with
    | none => rfl
    | some scc =>
      have h1 : ∀ (s : Library), shape (scc.nodes.foldl (fun l nid =>
          let l := modNode l nid (fun n => addInheritTags n acc)
          if false then modNode l nid saveNode else l) s) = shape s := by
        intro s
        refine foldl_preserve (P := fun l => shape l = shape s) ?_ scc.nodes s rfl
        intro s2 nid hs
        simp only [if_neg (by simp : ¬ false = true)]
        rw [shape_modNode_inhOnly s2 nid _ (fun n => eraseInh_addInheritTags n acc)]
        exact hs
      have h2 : ∀ (cl : List Nat) (s : Library) a,
          shape (cl.foldl (fun l cid => applyTagInheritanceRec false fuel l cid a) s) =
            shape s := by
        intro cl
        induction cl with
        | nil => intro s a; rfl
        | cons c cl ih2 =>
          intro s a
          rw [List.foldl_cons, ih2, ih]
      rw [h2, h1]

theorem shape_applyTagInheritance (fuel : Nat) (lib : Library) :
    shape (applyTagInheritance false fuel lib) = shape lib := by
  unfold applyTagInheritance
  have h2 : ∀ (rs : List (String × Nat)) (s : Library),
      shape (rs.foldl (fun l p => applyTagInheritanceRec false fuel l p.2 []) s) =
        shape s := by
    intro rs
    induction rs with
    | nil => intro s; rfl
    | cons r rs ih =>
      intro s
      rw [List.foldl_cons, ih, shape_rec]
  rw [h2, shape_reset]

/-- From equal shapes, matching nodes: both lookups fail or both succeed
with nodes equal after inherit-tag erasure. -/
theorem shapeEq_getNode {s₁ s₂ : Library} (h : shape s₁ = shape s₂) (id : Nat) :
    (getNode s₁ id).map eraseInh = (getNode s₂ id).map eraseInh := by
  have h1 := congrArg (fun l => getNode l id) h
  simpa only [getNode_shape] using h1

theorem addInheritTags_inh_congr (n₁ n₂ : Node) (acc : List String)
    (ht : n₁.tags = n₂.tags) (hi : n₁.inheritTags = n₂.inheritTags) :
    (addInheritTags n₁ acc).inheritTags = (addInheritTags n₂ acc).inheritTags := by
  unfold addInheritTags
  simp only [ht, hi]

theorem inhEquiv_modNode_addInh (id nid : Nat) (acc : List String) (s₁ s₂ : Library)
    (h : InhEquivAt id s₁ s₂) :
    InhEquivAt id (modNode s₁ nid (fun n => addInheritTags n acc))
      (modNode s₂ nid (fun n => addInheritTags n acc)) := by
  obtain ⟨hsh, hinh⟩ := h
  constructor
  · rw [shape_modNode_inhOnly s₁ nid _ (fun n => eraseInh_addInheritTags n acc),
      shape_modNode_inhOnly s₂ nid _ (fun n => eraseInh_addInheritTags n acc)]
    exact hsh
  · have hinh2 : (getNode s₁ id).map Node.inheritTags =
        (getNode s₂ id).map Node.inheritTags := hinh
    unfold inhAt
    rw [getNode_modNode, getNode_modNode]
    by_cases hid : id = nid
    · rw [if_pos hid, if_pos hid, ← hid]
      have hsn := shapeEq_getNode hsh id
      cases h1 : getNode s₁ id with
      | none =>
        rw [h1] at hsn
        cases h2 : getNode s₂ id with
        | none => rfl
        | some n₂ => rw [h2] at hsn; simp at hsn
      | some n₁ =>
        rw [h1] at hsn
        cases h2 : getNode s₂ id with
        | none => rw [h2] at hsn; simp at hsn
        | some n₂ =>
          rw [h2] at hsn
          simp at hsn
          rw [h1, h2] at hinh2
          simp only [Option.map_some', Option.some.injEq] at hinh2
          have htags : n₁.tags = n₂.tags := by
            have := congrArg Node.tags hsn
            simpa [eraseInh] using this
          simp only [Option.map_some']
          rw [addInheritTags_inh_congr n₁ n₂ acc htags hinh2]
    · rw [if_neg hid, if_neg hid]
      exact hinh

theorem accFold_congr (mlist : List Nat) (s₁ s₂ : Library)
    (hsh : shape s₁ = shape s₂) :
    ∀ (acc : List String),
      mlist.foldl (fun a nid =>
        match getNode s₁ nid with
        | some n => insertAbsent a n.wikiTag
        | none => a) acc =
      mlist.foldl (fun a nid =>
        match getNode s₂ nid with
        | some n => insertAbsent a n.wikiTag
        | none => a) acc := by
  induction mlist with
  | nil => intro acc; rfl
  | cons nid rest ih =>
    intro acc
    rw [List.foldl_cons, List.foldl_cons]
    have hsn := shapeEq_getNode hsh nid
    cases h1 : getNode s₁ nid with
    | none =>
      rw [h1] at hsn
      cases h2 : getNode s₂ nid with
      | none => exact ih acc
      | some n₂ => rw [h2] at hsn; simp at hsn
    | some n₁ =>
      rw [h1] at hsn
      cases h2 : getNode s₂ nid with
      | none => rw [h2] at hsn; simp at hsn
      | some n₂ =>
        rw [h2] at hsn
        simp at hsn
        have hwt : n₁.wikiTag = n₂.wikiTag := by
          have := congrArg Node.wikiTag hsn
          simpa [eraseInh] using this
        rw [show (match some n₁ with
              | some n => insertAbsent acc n.wikiTag
              | none => acc) = insertAbsent acc n₁.wikiTag from rfl,
            show (match some n₂ with
              | some n => insertAbsent acc n.wikiTag
              | none => acc) = insertAbsent acc n₂.wikiTag from rfl,
            hwt]
        exact ih _

theorem rec_inh_congr (fuel : Nat) :
    ∀ (sid : Nat) (acc : List String) (id : Nat) (s₁ s₂ : Library),
      InhEquivAt id s₁ s₂ →
      InhEquivAt id (applyTagInheritanceRec false fuel s₁ sid acc)
        (applyTagInheritanceRec false fuel s₂ sid acc) := by
  induction fuel with
  | zero => intro _ _ _ _ _ h; exact h
  | succ fuel ih =>
    intro sid acc id s₁ s₂ h
    have hsccA : getScc s₁ sid = getScc s₂ sid := by
      have := congrArg Library.sccArena h.1
      rw [shape_sccArena, shape_sccArena] at this
      unfold getScc
      rw [this]
    unfold applyTagInheritanceRec
    cases hscc : getScc s₂ sid with
    | none =>
      rw [hsccA, hscc]
      exact h
    | some scc =>
      rw [hsccA, hscc]
      simp only [if_neg (by simp : ¬ false = true)]
      have hmem : InhEquivAt id
          (scc.nodes.foldl (fun l nid =>
            modNode l nid (fun n => addInheritTags n acc)) s₁)
          (scc.nodes.foldl (fun l nid =>
            modNode l nid (fun n => addInheritTags n acc)) s₂) :=
        foldl_congr_rel (R := InhEquivAt id)
          (fun t₁ t₂ nid ht => inhEquiv_modNode_addInh id nid acc t₁ t₂ ht)
          scc.nodes s₁ s₂ h
      have hacc : (scc.nodes.foldl (fun a nid =>
          match getNode (scc.nodes.foldl (fun l nid' =>
            modNode l nid' (fun n => addInheritTags n acc)) s₁) nid with
          | some n => insertAbsent a n.wikiTag
          | none => a) acc) =
        (scc.nodes.foldl (fun a nid =>
          match getNode (scc.nodes.foldl (fun l nid' =>
            modNode l nid' (fun n => addInheritTags n acc)) s₂) nid with
          | some n => insertAbsent a n.wikiTag
          | none => a) acc) :=
        accFold_congr scc.nodes _ _ hmem.1 acc
      rw [hacc]
      exact foldl_congr_rel (R := InhEquivAt id)
        (fun t₁ t₂ cid ht => ih cid _ id t₁ t₂ ht) scc.children _ _ hmem

/-- After the reset, the inherit-tag set stored at a table-resident id is
empty (as an `Option`, determined by node existence only). -/
theorem reset_inhAt_table (x : Library) (id : Nat) (hid : id ∈ x.nodes.map Prod.snd) :
    inhAt (resetInheritTags x) id = (getNode x id).map (fun _ => ([] : List String)) := by
  unfold inhAt resetInheritTags
  have hpres : ∀ (s : Library),
      getNode s id = (getNode x id).map eraseInh →
      ∀ (ps : List (String × Nat)),
        getNode (ps.foldl (fun l p => modNode l p.2
          (fun n => { n with inheritTags := [] })) s) id = (getNode x id).map eraseInh := by
    intro s hs ps
    refine foldl_preserve (P := fun l => getNode l id = (getNode x id).map eraseInh)
      ?_ ps s hs
    intro s2 p hs2
    rw [getNode_modNode]
    by_cases hidp : id = p.2
    · rw [if_pos hidp, ← hidp, hs2]
      cases getNode x id with
      | none => rfl
      | some n => rfl
    · rw [if_neg hidp]
      exact hs2
  have hmain : ∀ (ps : List (String × Nat)) (s : Library),
      getNode s id = getNode x id → id ∈ ps.map Prod.snd →
      getNode (ps.foldl (fun l p => modNode l p.2
        (fun n => { n with inheritTags := [] })) s) id = (getNode x id).map eraseInh := by
    intro ps
    induction ps with
    | nil => intro s _ hmem; simp at hmem
    | cons p ps ih =>
      intro s hs hmem
      rw [List.foldl_cons]
      by_cases hidp : id = p.2
      · refine hpres (modNode s p.2 (fun n => { n with inheritTags := [] })) ?_ ps
        rw [getNode_modNode, if_pos hidp, ← hidp, hs]
        cases getNode x id with
        | none => rfl
        | some n => rfl
      · have hmem2 : id ∈ ps.map Prod.snd := by
          simp at hmem
          rcases hmem with h1 | h1
          · exact absurd h1 hidp
          · simpa using h1
        refine ih (modNode s p.2 (fun n => { n with inheritTags := [] })) ?_ hmem2
        rw [getNode_modNode, if_neg hidp]
        exact hs
  rw [hmain x.nodes x rfl hid]
  cases getNode x id with
  | none => rfl
  | some n => rfl

theorem rootSccs_shape_congr {s₁ s₂ : Library} (h : shape s₁ = shape s₂) :
    rootSccs s₁ = rootSccs s₂ := by
  unfold rootSccs
  have h1 : s₁.sccs = s₂.sccs := by
    have := congrArg Library.sccs h
    simpa [shape_sccs] using this
  have h2 : s₁.sccArena = s₂.sccArena := by
    have := congrArg Library.sccArena h
    simpa [shape_sccArena] using this
  rw [h1]
  congr 1
  funext p
  unfold getScc
  rw [h2]

/-- Two states with the same shape and a table-resident id are propagated
to the same inherit-tag set at that id. -/
theorem applyTagInheritance_inhAt_congr (fuel : Nat) (id : Nat) (s₁ s₂ : Library)
    (hsh : shape s₁ = shape s₂) (hid : id ∈ s₁.nodes.map Prod.snd) :
    inhAt (applyTagInheritance false fuel s₁) id =
      inhAt (applyTagInheritance false fuel s₂) id := by
  have hn : s₁.nodes = s₂.nodes := by
    have := congrArg Library.nodes hsh
    simpa [shape_nodes] using this
  have hid₂ : id ∈ s₂.nodes.map Prod.snd := by rw [← hn]; exact hid
  have hstart : InhEquivAt id (resetInheritTags s₁) (resetInheritTags s₂) := by
    constructor
    · rw [shape_reset, shape_reset]
      exact hsh
    · rw [reset_inhAt_table s₁ id hid, reset_inhAt_table s₂ id hid₂]
      exact shapeEq_nodeProj (fun _ => ([] : List String)) (fun _ => rfl) hsh id
  have hroots : rootSccs (resetInheritTags s₁) = rootSccs (resetInheritTags s₂) := by
    refine rootSccs_shape_congr ?_
    rw [shape_reset, shape_reset]
    exact hsh
  have hfinal : InhEquivAt id (applyTagInheritance false fuel s₁)
      (applyTagInheritance false fuel s₂) := by
    unfold applyTagInheritance
    dsimp only
    rw [hroots]
    exact foldl_congr_rel (R := InhEquivAt id)
      (fun t₁ t₂ p ht => rec_inh_congr fuel p.2 [] id t₁ t₂ ht)
      (rootSccs (resetInheritTags s₂)) _ _ hstart
  exact hfinal.2

/-- Claim C6: running apply_tag_inheritance twice in succession with no
structural change produces, for every table entry, an inherit-tag set after
the second run identical to the set after the first run, and hence a
byte-identical regenerated `[Auto]:` annotation line. -/
theorem propagation_idempotent (fuel : Nat) (s : Library) (w : String) :
    inhOfKey (applyTagInheritance false fuel (applyTagInheritance false fuel s)) w =
      inhOfKey (applyTagInheritance false fuel s) w ∧
    (inhOfKey (applyTagInheritance false fuel (applyTagInheritance false fuel s)) w).map
        renderAutoLine =
      (inhOfKey (applyTagInheritance false fuel s) w).map renderAutoLine := by
  have hmain : inhOfKey (applyTagInheritance false fuel (applyTagInheritance false fuel s)) w =
      inhOfKey (applyTagInheritance false fuel s) w := by
    have hshA : shape (applyTagInheritance false fuel s) = shape s :=
      shape_applyTagInheritance fuel s
    unfold inhOfKey nodeOfKey
    rw [applyTagInheritance_nodes false fuel (applyTagInheritance false fuel s),
      applyTagInheritance_nodes false fuel s]
    cases hw : lookupA s.nodes w with
    | none => rfl
    | some id =>
      simp only [Option.some_bind]
      have hid : id ∈ (applyTagInheritance false fuel s).nodes.map Prod.snd := by
        rw [applyTagInheritance_nodes false fuel s]
        exact lookupA_mem_values s.nodes w id hw
      exact applyTagInheritance_inhAt_congr fuel id
        (applyTagInheritance false fuel s) s hshA hid
  exact ⟨hmain, by rw [hmain]⟩

/- ---------------------------------------------------------------------
Condensed-graph adjacency (claim C3).
--------------------------------------------------------------------- -/

/-- Claim C3 (counterexample): after init_graph over `B ↔ C` (a two-node
cycle) and `A` with tags `[B, C]`, the component of `A` (arena id 1) lists
the component of the cycle (arena id 0) twice among its parents — the edge
appears more than once.  And after init_graph over `D`, `B2 ↔ C2` where
only the non-root member `C2` has the external parent `D`, the cycle's
component records no parent at all even though the node-level edge
`C2 → D` crosses components — the per-member overwrite loses it. -/
theorem sccEdges_duplicate_and_missing_counterexample :
    (sccOfPseudo c3DupLib "A").map SCC.parents = some [0, 0] ∧
    ((getScc c3DupLib 0).map SCC.pseudoWikiTag) = some "B" ∧
    (sccOfPseudo c3MissLib "B2").map SCC.parents = some [] ∧
    membersOfPseudo c3MissLib "B2" = some [2, 1] ∧
    ((getNode c3MissLib 2).map Node.parents) = some [1, 0] ∧
    ((getNode c3MissLib 2).map Node.scc) = some (some 1) ∧
    ((getNode c3MissLib 0).map Node.scc) = some (some 0) := by decide

theorem foldl_preserve_mem {σ α : Type} {P : σ → Prop} :
    ∀ (l : List α) (f : σ → α → σ),
      (∀ s a, a ∈ l → P s → P (f s a)) → ∀ s, P s → P (l.foldl f s) := by
  intro l
  induction l with
  | nil => intro f _ s hs; exact hs
  | cons a l ih =>
    intro f h s hs
    exact ih f (fun s b hb hsb => h s b (List.mem_cons_of_mem a hb) hsb) (f s a)
      (h s a (List.mem_cons_self a l) hs)

theorem lookupA_mem {κ α : Type} [DecidableEq κ] (l : List (κ × α)) (k : κ) (v : α)
    (h : lookupA l k = some v) : (k, v) ∈ l := by
  induction l with
  | nil => simp [lookupA] at h
  | cons p rest ih =>
    obtain ⟨k', w⟩ := p
    by_cases hk : k = k'
    · subst hk
      simp [lookupA] at h
      simp [h]
    · simp [lookupA, hk] at h
      exact List.mem_cons_of_mem _ (ih h)

theorem computeParent_fold_sound (lib : Library) (sid : Nat) :
    ∀ (pl : List Nat) (acc : List Nat) (B : Nat),
      B ∈ pl.foldl (fun acc pid =>
        match getNode lib pid with
        | none => acc
        | some p =>
          match p.scc with
          | none => acc
          | some psid =>
            match getScc lib psid with
            | none => acc
            | some pscc =>
              if psid ≠ sid ∧ sid ∉ pscc.parents then acc ++ [psid] else acc) acc →
      B ∈ acc ∨
        (B ≠ sid ∧ ∃ pid ∈ pl, ∃ p, getNode lib pid = some p ∧ p.scc = some B) := by
  intro pl
  induction pl with
  | nil => intro acc B h; exact Or.inl h
  | cons pid pl ih =>
    intro acc B h
    rw [List.foldl_cons] at h
    rcases ih _ B h with h2 | h2
    · cases hgn : getNode lib pid with
      | none => rw [hgn] at h2; exact Or.inl h2
      | some p =>
        rw [hgn] at h2
        dsimp only at h2
        cases hps : p.scc with
        | none => rw [hps] at h2; exact Or.inl h2
        | some psid =>
          rw [hps] at h2
          dsimp only at h2
          cases hgs : getScc lib psid with
          | none => rw [hgs] at h2; exact Or.inl h2
          | some pscc =>
            rw [hgs] at h2
            dsimp only at h2
            by_cases hcond : psid ≠ sid ∧ sid ∉ pscc.parents
            · rw [if_pos hcond] at h2
              rcases List.mem_append.mp h2 with h3 | h3
              · exact Or.inl h3
              · have hB : B = psid := by simpa using h3
                subst hB
                exact Or.inr ⟨hcond.1, pid, List.mem_cons_self pid pl, p, hgn, hps⟩
            · rw [if_neg hcond] at h2
              exact Or.inl h2
    · obtain ⟨hne, pid', hp', rest⟩ := h2
      exact Or.inr ⟨hne, pid', List.mem_cons_of_mem pid hp', rest⟩

theorem computeParentSccs_sound (lib : Library) (sid : Nat) (n : Node) :
    ∀ B ∈ computeParentSccs lib sid n,
      B ≠ sid ∧ ∃ pid ∈ n.parents, ∃ p, getNode lib pid = some p ∧ p.scc = some B := by
  intro B hB
  unfold computeParentSccs at hB
  rcases computeParent_fold_sound lib sid n.parents [] B hB with h | h
  · exact absurd h (List.not_mem_nil B)
  · exact h

theorem deriveEdgesForScc_sound (lib : Library) (sid : Nat) (h : SoundParents lib) :
    SoundParents (deriveEdgesForScc lib sid) := by
  unfold deriveEdgesForScc
  cases hscc : getScc lib sid with
  | none => exact h
  | some scc =>
    refine (foldl_preserve_mem
      (P := fun l => SoundParents l ∧ l.nodeArena = lib.nodeArena ∧
        (∀ scc', getScc l sid = some scc' → scc'.nodes = scc.nodes))
      scc.nodes _ ?_ lib ⟨h, rfl, ?_⟩).1
    · intro s nid hmem hs
      obtain ⟨hsound, harena, hnodes⟩ := hs
      cases hgn : getNode s nid with
      | none => exact ⟨hsound, harena, hnodes⟩
      | some n =>
        refine ⟨?_, harena, ?_⟩
        · intro sid' scc'' hg B hB
          rw [getScc_modScc] at hg
          by_cases hsid : sid' = sid
          · rw [if_pos hsid] at hg
            cases hg2 : getScc s sid with
            | none => rw [hg2] at hg; simp at hg
            | some r =>
              rw [hg2] at hg
              simp at hg
              have hBps : B ∈ computeParentSccs s sid n := by
                rw [← hg] at hB
                exact hB
              obtain ⟨hne, pid, hpid, p, hgp, hpscc⟩ :=
                computeParentSccs_sound s sid n B hBps
              refine ⟨hsid ▸ hne, nid, ?_, n, ?_, pid, hpid, p, ?_, hpscc⟩
              · rw [← hg]
                have : r.nodes = scc.nodes := hnodes r hg2
                simpa [this] using hmem
              · rw [getNode_modScc]
                exact hgn
              · rw [getNode_modScc]
                exact hgp
          · rw [if_neg hsid] at hg
            obtain ⟨hne, nid', hnid', n', hgn', pid, hpid, p, hgp, hpscc⟩ :=
              hsound sid' scc'' hg B hB
            refine ⟨hne, nid', hnid', n', ?_, pid, hpid, p, ?_, hpscc⟩
            · rw [getNode_modScc]
              exact hgn'
            · rw [getNode_modScc]
              exact hgp
        · intro scc'' hg
          rw [getScc_modScc, if_pos rfl] at hg
          cases hg2 : getScc s sid with
          | none => rw [hg2] at hg; simp at hg
          | some r =>
            rw [hg2] at hg
            simp at hg
            have : r.nodes = scc.nodes := hnodes r hg2
            rw [← hg]
            exact this
    · intro scc' hg
      rw [hscc] at hg
      cases hg
      rfl

theorem deriveAllSccEdges_sound (lib : Library) (h : SoundParents lib) :
    SoundParents (deriveAllSccEdges lib) := by
  unfold deriveAllSccEdges
  exact foldl_preserve (P := SoundParents)
    (fun s p hs => deriveEdgesForScc_sound s p.2 hs) lib.sccs lib h

theorem computeChild_fold_sound (lib : Library) (sid : Nat) :
    ∀ (cl : List Nat) (acc : List Nat) (B : Nat),
      B ∈ cl.foldl (fun acc cid =>
        match getNode lib cid with
        | none => acc
        | some c =>
          match c.scc with
          | none => acc
          | some csid =>
            match getScc lib csid with
            | none => acc
            | some cscc =>
              if csid ≠ sid ∧ sid ∉ cscc.children then acc ++ [csid] else acc) acc →
      B ∈ acc ∨
        (B ≠ sid ∧ ∃ cid ∈ cl, ∃ c, getNode lib cid = some c ∧ c.scc = some B) := by
  intro cl
  induction cl with
  | nil => intro acc B h; exact Or.inl h
  | cons cid cl ih =>
    intro acc B h
    rw [List.foldl_cons] at h
    rcases ih _ B h with h2 | h2
    · cases hgn : getNode lib cid with
      | none => rw [hgn] at h2; exact Or.inl h2
      | some c =>
        rw [hgn] at h2
        dsimp only at h2
        cases hcs : c.scc with
        | none => rw [hcs] at h2; exact Or.inl h2
        | some csid =>
          rw [hcs] at h2
          dsimp only at h2
          cases hgs : getScc lib csid with
          | none => rw [hgs] at h2; exact Or.inl h2
          | some cscc =>
            rw [hgs] at h2
            dsimp only at h2
            by_cases hcond : csid ≠ sid ∧ sid ∉ cscc.children
            · rw [if_pos hcond] at h2
              rcases List.mem_append.mp h2 with h3 | h3
              · exact Or.inl h3
              · have hB : B = csid := by simpa using h3
                subst hB
                exact Or.inr ⟨hcond.1, cid, List.mem_cons_self cid cl, c, hgn, hcs⟩
            · rw [if_neg hcond] at h2
              exact Or.inl h2
    · obtain ⟨hne, cid', hc', rest⟩ := h2
      exact Or.inr ⟨hne, cid', List.mem_cons_of_mem cid hc', rest⟩

theorem computeChildSccs_sound (lib : Library) (sid : Nat) (n : Node) :
    ∀ B ∈ computeChildSccs lib sid n,
      B ≠ sid ∧ ∃ cid ∈ n.children, ∃ c, getNode lib cid = some c ∧ c.scc = some B := by
  intro B hB
  unfold computeChildSccs at hB
  rcases computeChild_fold_sound lib sid n.children [] B hB with h | h
  · exact absurd h (List.not_mem_nil B)
  · exact h

theorem deriveEdgesForScc_sound_child (lib : Library) (sid : Nat) (h : SoundChildren lib) :
    SoundChildren (deriveEdgesForScc lib sid) := by
  unfold deriveEdgesForScc
  cases hscc : getScc lib sid with
  | none => exact h
  | some scc =>
    refine (foldl_preserve_mem
      (P := fun l => SoundChildren l ∧ l.nodeArena = lib.nodeArena ∧
        (∀ scc', getScc l sid = some scc' → scc'.nodes = scc.nodes))
      scc.nodes _ ?_ lib ⟨h, rfl, ?_⟩).1
    · intro s nid hmem hs
      obtain ⟨hsound, harena, hnodes⟩ := hs
      cases hgn : getNode s nid with
      | none => exact ⟨hsound, harena, hnodes⟩
      | some n =>
        refine ⟨?_, harena, ?_⟩
        · intro sid' scc'' hg B hB
          rw [getScc_modScc] at hg
          by_cases hsid : sid' = sid
          · rw [if_pos hsid] at hg
            cases hg2 : getScc s sid with
            | none => rw [hg2] at hg; simp at hg
            | some r =>
              rw [hg2] at hg
              simp at hg
              have hBcs : B ∈ computeChildSccs s sid n := by
                rw [← hg] at hB
                exact hB
              obtain ⟨hne, cid, hcid, c, hgc, hcscc⟩ :=
                computeChildSccs_sound s sid n B hBcs
              refine ⟨hsid ▸ hne, nid, ?_, n, ?_, cid, hcid, c, ?_, hcscc⟩
              · rw [← hg]
                have : r.nodes = scc.nodes := hnodes r hg2
                simpa [this] using hmem
              · rw [getNode_modScc]
                exact hgn
              · rw [getNode_modScc]
                exact hgc
          · rw [if_neg hsid] at hg
            obtain ⟨hne, nid', hnid', n', hgn', cid, hcid, c, hgc, hcscc⟩ :=
              hsound sid' scc'' hg B hB
            refine ⟨hne, nid', hnid', n', ?_, cid, hcid, c, ?_, hcscc⟩
            · rw [getNode_modScc]
              exact hgn'
            · rw [getNode_modScc]
              exact hgc
        · intro scc'' hg
          rw [getScc_modScc, if_pos rfl] at hg
          cases hg2 : getScc s sid with
          | none => rw [hg2] at hg; simp at hg
          | some r =>
            rw [hg2] at hg
            simp at hg
            have : r.nodes = scc.nodes := hnodes r hg2
            rw [← hg]
            exact this
    · intro scc' hg
      rw [hscc] at hg
      cases hg
      rfl

theorem deriveAllSccEdges_sound_child (lib : Library) (h : SoundChildren lib) :
    SoundChildren (deriveAllSccEdges lib) := by
  unfold deriveAllSccEdges
  exact foldl_preserve (P := SoundChildren)
    (fun s p hs => deriveEdgesForScc_sound_child s p.2 hs) lib.sccs lib h

theorem strongConnect_fresh (lib : Library) :
    ∀ (fuel : Nat) (tst : TarjanState) (nid : Nat), FreshSccs tst.sccAcc →
      FreshSccs (strongConnect lib fuel tst nid).sccAcc := by
  intro fuel
  induction fuel with
  | zero => intro tst _ h; exact h
  | succ fuel ih =>
    intro tst nid h
    unfold strongConnect
    cases hgn : getNode lib nid with
    | none => exact h
    | some n =>
      have hfold : FreshSccs ((n.parents.foldl (fun (t : TarjanState) pid =>
          match getNode lib pid with
          | none => t
          | some p =>
            if !(memA t.indices p.wikiTag) then
              let t := strongConnect lib fuel t pid
              let lw := (lookupA t.lowLinks n.wikiTag).getD 0
              let lp := (lookupA t.lowLinks p.wikiTag).getD 0
              { t with lowLinks := setA t.lowLinks n.wikiTag (Nat.min lw lp) }
            else if p.wikiTag ∈ t.onStack then
              let lw := (lookupA t.lowLinks n.wikiTag).getD 0
              let ip := (lookupA t.indices p.wikiTag).getD 0
              { t with lowLinks := setA t.lowLinks n.wikiTag (Nat.min lw ip) }
            else t)
          { tst with
            indices := setA tst.indices n.wikiTag tst.counter
            lowLinks := setA tst.lowLinks n.wikiTag tst.counter
            counter := tst.counter + 1
            stack := n.wikiTag :: tst.stack
            onStack := insertAbsent tst.onStack n.wikiTag }).sccAcc) := by
        refine foldl_preserve (P := fun (t : TarjanState) => FreshSccs t.sccAcc)
          ?_ n.parents _ h
        intro t pid ht
        cases hgp : getNode lib pid with
        | none => exact ht
        | some p =>
          dsimp only
          split
          · show FreshSccs (strongConnect lib fuel t pid).sccAcc
            exact ih t pid ht
          · split
            · exact ht
            · exact ht
      dsimp only
      split
      · refine fun p hp => ?_
        dsimp only at hp
        rcases List.mem_append.mp hp with h3 | h3
        · exact hfold p h3
        · have h4 := List.mem_singleton.mp h3
          rw [h4]
          exact ⟨rfl, rfl⟩
      · exact hfold

theorem tarjanAll_fresh (lib : Library) : FreshSccs (tarjanAll lib).sccAcc := by
  unfold tarjanAll
  refine foldl_preserve (P := fun (t : TarjanState) => FreshSccs t.sccAcc)
    ?_ lib.nodes _ ?_
  · intro t p ht
    dsimp only
    split
    · exact ht
    · exact strongConnect_fresh lib (lib.nodes.length + 1) t p.2 ht
  · intro p hp
    exact absurd hp (List.not_mem_nil p)

theorem addOuterRef_sccArena (lib : Library) (tag : String) (nid : Nat) :
    (addOuterRef lib tag nid).sccArena = lib.sccArena := by
  unfold addOuterRef
  cases lookupA lib.outerTagRefs tag <;> rfl

theorem linkEdgesForNode_sccArena (lib : Library) (nid : Nat) :
    (linkEdgesForNode lib nid).sccArena = lib.sccArena := by
  unfold linkEdgesForNode
  cases getNode lib nid with
  | none => rfl
  | some n =>
    refine foldl_preserve (P := fun (l : Library) => l.sccArena = lib.sccArena)
      ?_ n.tags _ rfl
    intro s tag hs
    unfold linkOneTag
    cases htag : lookupA s.nodes tag with
    | none =>
      rw [addOuterRef_sccArena]
      exact hs
    | some pid =>
      exact hs

theorem linkAllEdges_sccArena (lib : Library) :
    (linkAllEdges lib).sccArena = lib.sccArena := by
  unfold linkAllEdges
  refine foldl_preserve (P := fun (l : Library) => l.sccArena = lib.sccArena)
    ?_ lib.nodes _ rfl
  intro s p hs
  rw [linkEdgesForNode_sccArena]
  exact hs

theorem assignSccs_sccArena (lib : Library) :
    (assignSccs lib).sccArena = lib.sccArena := by
  unfold assignSccs
  refine foldl_preserve (P := fun (l : Library) => l.sccArena = lib.sccArena)
    ?_ lib.sccs _ rfl
  intro s p hs
  cases hg : getScc s p.2 with
  | none => exact hs
  | some scc =>
    dsimp only
    refine foldl_preserve (P := fun (l : Library) => l.sccArena = lib.sccArena)
      ?_ scc.nodes s hs
    intro s2 nid hs2
    rw [modNode_sccArena]
    exact hs2

/-- Claim C3 (amended): after init_graph, every recorded component-level
parent edge and every recorded component-level child edge is sound — it
joins two distinct components and is induced by at least one node-level
edge of the corresponding direction from a member of the component.  (The
original claim's further demands fail: an edge may be recorded several
times, and an induced edge may be missing, because the derivation loop
overwrites the adjacency lists once per member and its deduplication
consults the wrong list — see the counterexample.) -/
theorem initGraph_sccEdges_sound (docs : List Doc) :
    ∀ pseudo sid, lookupA (initGraph docs).sccs pseudo = some sid →
      ∀ scc, getScc (initGraph docs) sid = some scc →
        (∀ B ∈ scc.parents, B ≠ sid ∧
          ∃ nid ∈ scc.nodes, ∃ n, getNode (initGraph docs) nid = some n ∧
            ∃ pid ∈ n.parents, ∃ p, getNode (initGraph docs) pid = some p ∧
              p.scc = some B) ∧
        (∀ B ∈ scc.children, B ≠ sid ∧
          ∃ nid ∈ scc.nodes, ∃ n, getNode (initGraph docs) nid = some n ∧
            ∃ cid ∈ n.children, ∃ c, getNode (initGraph docs) cid = some c ∧
              c.scc = some B) := by
  have hsoundP : SoundParents (initGraph docs) := by
    unfold initGraph
    dsimp only
    apply deriveAllSccEdges_sound
    intro sid scc hg B hB
    have harena := assignSccs_sccArena
      { linkAllEdges (libOfScan (scanDocs docs)) with
        sccArena := (linkAllEdges (libOfScan (scanDocs docs))).sccArena ++
          (tarjanAll (linkAllEdges (libOfScan (scanDocs docs)))).sccAcc
        sccNext := (tarjanAll (linkAllEdges (libOfScan (scanDocs docs)))).sccNext
        sccs := (tarjanAll (linkAllEdges (libOfScan (scanDocs docs)))).sccTable }
    unfold getScc at hg
    rw [harena] at hg
    have hempty : (linkAllEdges (libOfScan (scanDocs docs))).sccArena = [] := by
      rw [linkAllEdges_sccArena]
      rfl
    simp only [hempty, List.nil_append] at hg
    have hmem := lookupA_mem _ sid scc hg
    have hfresh := tarjanAll_fresh (linkAllEdges (libOfScan (scanDocs docs)))
      (sid, scc) hmem
    rw [hfresh.1] at hB
    exact absurd hB (List.not_mem_nil B)
  have hsoundC : SoundChildren (initGraph docs) := by
    unfold initGraph
    dsimp only
    apply deriveAllSccEdges_sound_child
    intro sid scc hg B hB
    have harena := assignSccs_sccArena
      { linkAllEdges (libOfScan (scanDocs docs)) with
        sccArena := (linkAllEdges (libOfScan (scanDocs docs))).sccArena ++
          (tarjanAll (linkAllEdges (libOfScan (scanDocs docs)))).sccAcc
        sccNext := (tarjanAll (linkAllEdges (libOfScan (scanDocs docs)))).sccNext
        sccs := (tarjanAll (linkAllEdges (libOfScan (scanDocs docs)))).sccTable }
    unfold getScc at hg
    rw [harena] at hg
    have hempty : (linkAllEdges (libOfScan (scanDocs docs))).sccArena = [] := by
      rw [linkAllEdges_sccArena]
      rfl
    simp only [hempty, List.nil_append] at hg
    have hmem := lookupA_mem _ sid scc hg
    have hfresh := tarjanAll_fresh (linkAllEdges (libOfScan (scanDocs docs)))
      (sid, scc) hmem
    rw [hfresh.2] at hB
    exact absurd hB (List.not_mem_nil B)
  intro pseudo sid _ scc hscc
  exact ⟨hsoundP sid scc hscc, hsoundC sid scc hscc⟩

/-- Witness for the amended C3 at the duplicate-edge build: the component of
`A` (id 1) records the parent edge to the cycle component (id 0) and the
theorem certifies it is induced by node `A`'s edge into the cycle; the cycle
component (id 0) records the child edge to `A`'s component and the theorem
certifies the mirror fact. -/
theorem initGraph_sccEdges_sound_witness :
    (∃ scc, getScc c3DupLib 1 = some scc ∧ 0 ∈ scc.parents ∧ (0 : Nat) ≠ 1 ∧
      ∃ nid ∈ scc.nodes, ∃ n, getNode c3DupLib nid = some n ∧
        ∃ pid ∈ n.parents, ∃ p, getNode c3DupLib pid = some p ∧ p.scc = some 0) ∧
    (∃ scc, getScc c3DupLib 0 = some scc ∧ 1 ∈ scc.children ∧ (1 : Nat) ≠ 0 ∧
      ∃ nid ∈ scc.nodes, ∃ n, getNode c3DupLib nid = some n ∧
        ∃ cid ∈ n.children, ∃ c, getNode c3DupLib cid = some c ∧ c.scc = some 1) := by
  have hA := initGraph_sccEdges_sound [c3DocB, c3DocC, c3DocA] "A" 1 (by decide)
    ⟨[2], [0, 0], [], "A"⟩ (by decide)
  have hB := initGraph_sccEdges_sound [c3DocB, c3DocC, c3DocA] "B" 0 (by decide)
    ⟨[1, 0], [], [1], "B"⟩ (by decide)
  have h1 := hA.1 0 (by decide)
  have h2 := hB.2 1 (by decide)
  exact ⟨⟨⟨[2], [0, 0], [], "A"⟩, by decide, by decide, h1.1, h1.2⟩,
         ⟨⟨[1, 0], [], [1], "B"⟩, by decide, by decide, h2.1, h2.2⟩⟩

/- ---------------------------------------------------------------------
Scan-phase invariants (shared by claims C8 and C10).
--------------------------------------------------------------------- -/

theorem lookupA_delA {κ α : Type} [DecidableEq κ] (l : List (κ × α)) (k k' : κ) :
    lookupA (delA l k) k' = if k' = k then none else lookupA l k' := by
  induction l with
  | nil => simp [delA, lookupA]
  | cons p rest ih =>
    obtain ⟨k'', v⟩ := p
    by_cases h1 : k = k''
    · subst h1
      by_cases h2 : k' = k
      · subst h2
        simp [delA, ih]
      · simp [delA, lookupA, h2, ih]
    · by_cases h2 : k' = k''
      · subst h2
        simp [delA, lookupA, h1, Ne.symm h1]
      · simp [delA, lookupA, h1, h2, ih]

theorem lookupA_append {κ α : Type} [DecidableEq κ] (l m : List (κ × α)) (k : κ) :
    lookupA (l ++ m) k =
      match lookupA l k with
      | some v => some v
      | none => lookupA m k := by
  induction l with
  | nil => simp [lookupA]
  | cons p rest ih =>
    obtain ⟨k', v⟩ := p
    by_cases h : k = k' <;> simp [lookupA, h, ih]

theorem lookupA_append_left {κ α : Type} [DecidableEq κ] (l m : List (κ × α)) (k : κ)
    (v : α) (h : lookupA l k = some v) : lookupA (l ++ m) k = some v := by
  rw [lookupA_append, h]

theorem lookupA_append_fresh {κ α : Type} [DecidableEq κ] (l : List (κ × α)) (k : κ)
    (v : α) (h : lookupA l k = none) : lookupA (l ++ [(k, v)]) k = some v := by
  rw [lookupA_append, h]
  simp [lookupA]

theorem lookupA_append_ne_single {κ α : Type} [DecidableEq κ] (l : List (κ × α))
    (k k' : κ) (v : α) (h : k' ≠ k) : lookupA (l ++ [(k, v)]) k' = lookupA l k' := by
  rw [lookupA_append]
  cases hl : lookupA l k' with
  | some w => rfl
  | none => simp [lookupA, h]

theorem keys_setA {κ α : Type} [DecidableEq κ] (l : List (κ × α)) (k : κ) (v : α) :
    (setA l k v).map Prod.fst = l.map Prod.fst ∨
    ((setA l k v).map Prod.fst = l.map Prod.fst ++ [k] ∧ k ∉ l.map Prod.fst) := by
  induction l with
  | nil =>
    right
    simp [setA]
  | cons p rest ih =>
    obtain ⟨k', w⟩ := p
    by_cases hk : k = k'
    · left
      subst hk
      simp [setA]
    · rcases ih with h | ⟨h, hnk⟩
      · left
        simp [setA, if_neg hk, h]
      · right
        refine ⟨by simp [setA, if_neg hk, h], ?_⟩
        simp only [List.map_cons, List.mem_cons]
        push_neg
        exact ⟨hk, hnk⟩

theorem nodupKeys_setA {κ α : Type} [DecidableEq κ] (l : List (κ × α)) (k : κ) (v : α)
    (h : (l.map Prod.fst).Nodup) : ((setA l k v).map Prod.fst).Nodup := by
  rcases keys_setA l k v with he | ⟨he, hnk⟩
  · rw [he]; exact h
  · rw [he]
    refine List.Nodup.append h (List.nodup_singleton k) ?_
    intro a ha hb
    rw [List.mem_singleton] at hb
    subst hb
    exact hnk ha

theorem keys_delA_sublist {κ α : Type} [DecidableEq κ] (l : List (κ × α)) (k : κ) :
    List.Sublist ((delA l k).map Prod.fst) (l.map Prod.fst) := by
  induction l with
  | nil => simp [delA]
  | cons p rest ih =>
    obtain ⟨k', w⟩ := p
    by_cases hk : k = k'
    · simp only [delA, if_pos hk, List.map_cons]
      exact ih.cons _
    · simp only [delA, if_neg hk, List.map_cons]
      exact ih.cons₂ _

theorem nodupKeys_delA {κ α : Type} [DecidableEq κ] (l : List (κ × α)) (k : κ)
    (h : (l.map Prod.fst).Nodup) : ((delA l k).map Prod.fst).Nodup :=
  List.Nodup.sublist (keys_delA_sublist l k) h

theorem lookupA_of_mem_nodup {κ α : Type} [DecidableEq κ] (l : List (κ × α)) (k : κ) (v : α)
    (hnd : (l.map Prod.fst).Nodup) (hmem : (k, v) ∈ l) : lookupA l k = some v := by
  induction l with
  | nil => simp at hmem
  | cons p rest ih =>
    obtain ⟨k', w⟩ := p
    rw [List.map_cons, List.nodup_cons] at hnd
    obtain ⟨hnot, hrest⟩ := hnd
    rcases List.mem_cons.mp hmem with h | h
    · rw [Prod.mk.injEq] at h
      obtain ⟨rfl, rfl⟩ := h
      simp [lookupA]
    · by_cases hk : k = k'
      · subst hk
        exact absurd (List.mem_map_of_mem Prod.fst h) hnot
      · simp only [lookupA, if_neg hk]
        exact ih hrest h

theorem arena_fresh_none (st : ScanState) (h : ∀ p ∈ st.arena, (p : Nat × Node).1 < st.next) :
    lookupA st.arena st.next = none := by
  cases hl : lookupA st.arena st.next with
  | none => rfl
  | some v =>
    have hmem := lookupA_mem st.arena st.next v hl
    have := h (st.next, v) hmem
    exact absurd this (lt_irrefl st.next)

theorem scanStep_good (st : ScanState) (d : Doc) (h : GoodScan st) :
    GoodScan (scanStep st d) := by
  obtain ⟨h0, h1, h2, h3, h4⟩ := h
  have hfresh : lookupA st.arena st.next = none := arena_fresh_none st h0
  have harena_pres : ∀ (id : Nat) (n : Node), lookupA st.arena id = some n →
      lookupA (st.arena ++ [(st.next, mkNode d)]) id = some n :=
    fun id n hn => lookupA_append_left _ _ id n hn
  have harena_bound : ∀ p ∈ st.arena ++ [(st.next, mkNode d)],
      (p : Nat × Node).1 < st.next + 1 := by
    intro p hp
    rcases List.mem_append.mp hp with hp | hp
    · exact Nat.lt_succ_of_lt (h0 p hp)
    · have := List.mem_singleton.mp hp
      rw [this]
      exact Nat.lt_succ_self _
  have hnew : lookupA (st.arena ++ [(st.next, mkNode d)]) st.next = some (mkNode d) :=
    lookupA_append_fresh _ _ _ hfresh
  unfold scanStep
  dsimp only
  cases hdups : lookupA st.dups d.wikiTag with
  | some ids =>
    dsimp only
    refine ⟨harena_bound, ?_, ?_, ?_, ?_⟩
    · intro w id hw
      obtain ⟨n, hn, hwt⟩ := h1 w id hw
      exact ⟨n, harena_pres id n hn, hwt⟩
    · intro w ids' hw id hid
      by_cases hww : w = d.wikiTag
      · subst hww
        rw [lookupA_setA_self] at hw
        cases hw
        rcases List.mem_append.mp hid with hid | hid
        · obtain ⟨n, hn, hwt⟩ := h2 d.wikiTag ids hdups id hid
          exact ⟨n, harena_pres id n hn, hwt⟩
        · have := List.mem_singleton.mp hid
          subst this
          exact ⟨mkNode d, hnew, rfl⟩
      · rw [lookupA_setA_ne st.dups d.wikiTag w _ hww] at hw
        obtain ⟨n, hn, hwt⟩ := h2 w ids' hw id hid
        exact ⟨n, harena_pres id n hn, hwt⟩
    · intro w hw
      by_cases hww : w = d.wikiTag
      · subst hww
        have := h3 d.wikiTag hw
        rw [this] at hdups
        cases hdups
      · rw [lookupA_setA_ne st.dups d.wikiTag w _ hww]
        exact h3 w hw
    · exact h4
  | none =>
    dsimp only
    cases htab : lookupA st.table d.wikiTag with
    | some old =>
      dsimp only
      refine ⟨harena_bound, ?_, ?_, ?_, ?_⟩
      · intro w id hw
        rw [lookupA_delA] at hw
        by_cases hww : w = d.wikiTag
        · rw [if_pos hww] at hw
          cases hw
        · rw [if_neg hww] at hw
          obtain ⟨n, hn, hwt⟩ := h1 w id hw
          exact ⟨n, harena_pres id n hn, hwt⟩
      · intro w ids' hw id hid
        by_cases hww : w = d.wikiTag
        · subst hww
          rw [lookupA_setA_self] at hw
          cases hw
          rcases List.mem_cons.mp hid with hid | hid
          · obtain ⟨n, hn, hwt⟩ := h1 d.wikiTag old htab
            rw [hid]
            exact ⟨n, harena_pres old n hn, hwt⟩
          · have := List.mem_singleton.mp hid
            subst this
            exact ⟨mkNode d, hnew, rfl⟩
        · rw [lookupA_setA_ne st.dups d.wikiTag w _ hww] at hw
          obtain ⟨n, hn, hwt⟩ := h2 w ids' hw id hid
          exact ⟨n, harena_pres id n hn, hwt⟩
      · intro w hw
        rw [lookupA_delA] at hw
        by_cases hww : w = d.wikiTag
        · rw [if_pos hww] at hw
          exact absurd rfl hw
        · rw [if_neg hww] at hw
          rw [lookupA_setA_ne st.dups d.wikiTag w _ hww]
          exact h3 w hw
      · exact nodupKeys_delA st.table d.wikiTag h4
    | none =>
      dsimp only
      refine ⟨harena_bound, ?_, ?_, ?_, ?_⟩
      · intro w id hw
        by_cases hww : w = d.wikiTag
        · subst hww
          rw [lookupA_setA_self] at hw
          cases hw
          exact ⟨mkNode d, hnew, rfl⟩
        · rw [lookupA_setA_ne st.table d.wikiTag w _ hww] at hw
          obtain ⟨n, hn, hwt⟩ := h1 w id hw
          exact ⟨n, harena_pres id n hn, hwt⟩
      · intro w ids' hw id hid
        obtain ⟨n, hn, hwt⟩ := h2 w ids' hw id hid
        exact ⟨n, harena_pres id n hn, hwt⟩
      · intro w hw
        by_cases hww : w = d.wikiTag
        · subst hww
          exact hdups
        · rw [lookupA_setA_ne st.table d.wikiTag w _ hww] at hw
          exact h3 w hw
      · exact nodupKeys_setA st.table d.wikiTag st.next h4

theorem scanDocs_good (ds : List Doc) : GoodScan (scanDocs ds) := by
  unfold scanDocs
  refine foldl_preserve (P := GoodScan) (fun st d hst => scanStep_good st d hst) ds _ ?_
  refine ⟨?_, ?_, ?_, ?_, ?_⟩
  · intro p hp
    exact absurd hp (List.not_mem_nil p)
  · intro w id hw
    simp [lookupA] at hw
  · intro w ids hw
    simp [lookupA] at hw
  · intro w hw
    rfl
  · exact List.nodup_nil

theorem tdocs_append (T : String) (ds : List Doc) (d : Doc) :
    tdocs T (ds ++ [d]) = tdocs T ds ++ (if d.wikiTag = T then [d] else []) := by
  unfold tdocs
  rw [List.filter_append]
  congr 1
  by_cases h : d.wikiTag = T <;> simp [h]

theorem scanStep_tchar (T : String) (ds : List Doc) (d : Doc) (st : ScanState)
    (hg : GoodScan st) (h : TCharScan T ds st) :
    TCharScan T (ds ++ [d]) (scanStep st d) := by
  obtain ⟨h0, h1, h2, h3⟩ := hg
  obtain ⟨hc0, hc1, hc2⟩ := h
  have hfresh := arena_fresh_none st h0
  have hpres : ∀ (id : Nat), id < st.next →
      lookupA (st.arena ++ [(st.next, mkNode d)]) id = lookupA st.arena id :=
    fun id hid => lookupA_append_ne_single st.arena st.next id (mkNode d) (Nat.ne_of_lt hid)
  by_cases hdT : d.wikiTag = T
  · subst hdT
    cases htd : tdocs d.wikiTag ds with
    | nil =>
      obtain ⟨htab, hdups⟩ := hc0 htd
      unfold scanStep
      dsimp only
      rw [hdups, htab]
      dsimp only
      refine ⟨?_, ?_, ?_⟩
      · intro habs
        rw [tdocs_append, htd, if_pos rfl] at habs
        simp at habs
      · intro d₀ hone
        rw [tdocs_append, htd, if_pos rfl] at hone
        simp at hone
        refine ⟨hdups, st.next, lookupA_setA_self _ _ _, Nat.lt_succ_self _, ?_⟩
        rw [← hone]
        exact lookupA_append_fresh _ _ _ hfresh
      · intro habs
        rw [tdocs_append, htd, if_pos rfl] at habs
        simp at habs
    | cons d₀ rest =>
      cases hrest : rest with
      | nil =>
        rw [hrest] at htd
        obtain ⟨hdups, id₀, htab, hid₀, harena₀⟩ := hc1 d₀ htd
        unfold scanStep
        dsimp only
        rw [hdups, htab]
        dsimp only
        refine ⟨?_, ?_, ?_⟩
        · intro habs
          rw [tdocs_append, htd, if_pos rfl] at habs
          simp at habs
        · intro d₁ hone
          rw [tdocs_append, htd, if_pos rfl] at hone
          simp at hone
        · intro _
          refine ⟨?_, [id₀, st.next], lookupA_setA_self _ _ _, ?_, ?_⟩
          · rw [lookupA_delA, if_pos rfl]
          · rw [tdocs_append, htd, if_pos rfl]
            simp only [List.map_cons, List.map_nil, List.map_append]
            rw [hpres id₀ hid₀, harena₀]
            rw [lookupA_append_fresh _ _ _ hfresh]
            rfl
          · intro i hi
            rcases List.mem_cons.mp hi with hi | hi
            · rw [hi]; exact Nat.lt_succ_of_lt hid₀
            · have : i = st.next := List.mem_singleton.mp hi
              rw [this]; exact Nat.lt_succ_self _
      | cons d₁ rest₂ =>
        have hlen : 2 ≤ (tdocs d.wikiTag ds).length := by
          rw [htd, hrest]
          simp
        obtain ⟨htab, ids, hdups, hmaps, hbounds⟩ := hc2 hlen
        unfold scanStep
        dsimp only
        rw [hdups]
        dsimp only
        refine ⟨?_, ?_, ?_⟩
        · intro habs
          rw [tdocs_append, htd, if_pos rfl] at habs
          simp at habs
        · intro d₂ hone
          rw [tdocs_append, htd, if_pos rfl] at hone
          have hlen2 := congrArg List.length hone
          rw [hrest] at hlen2
          simp [List.length_append] at hlen2
        · intro _
          refine ⟨htab, ids ++ [st.next], lookupA_setA_self _ _ _, ?_, ?_⟩
          · rw [tdocs_append, if_pos rfl]
            rw [List.map_append, List.map_append]
            congr 1
            · rw [← hmaps]
              refine List.map_congr_left ?_
              intro i hi
              exact hpres i (hbounds i hi)
            · simp only [List.map_cons, List.map_nil]
              rw [lookupA_append_fresh _ _ _ hfresh]
          · intro i hi
            rcases List.mem_append.mp hi with hi | hi
            · exact Nat.lt_succ_of_lt (hbounds i hi)
            · have : i = st.next := List.mem_singleton.mp hi
              rw [this]; exact Nat.lt_succ_self _
  · have htd : tdocs T (ds ++ [d]) = tdocs T ds := by
      rw [tdocs_append, if_neg hdT, List.append_nil]
    have htrans : lookupA (scanStep st d).table T = lookupA st.table T ∧
        lookupA (scanStep st d).dups T = lookupA st.dups T ∧
        (scanStep st d).arena = st.arena ++ [(st.next, mkNode d)] ∧
        (scanStep st d).next = st.next + 1 := by
      have hne : T ≠ d.wikiTag := fun hx => hdT hx.symm
      unfold scanStep
      dsimp only
      cases hdups : lookupA st.dups d.wikiTag with
      | some ids =>
        exact ⟨rfl, lookupA_setA_ne _ _ _ _ hne, rfl, rfl⟩
      | none =>
        cases htab : lookupA st.table d.wikiTag with
        | some old =>
          exact ⟨by rw [lookupA_delA, if_neg hne], lookupA_setA_ne _ _ _ _ hne, rfl, rfl⟩
        | none =>
          exact ⟨lookupA_setA_ne _ _ _ _ hne, rfl, rfl, rfl⟩
    obtain ⟨ht1, ht2, ht3, ht4⟩ := htrans
    refine ⟨?_, ?_, ?_⟩
    · intro hnil
      rw [htd] at hnil
      obtain ⟨ha, hb⟩ := hc0 hnil
      rw [ht1, ht2]
      exact ⟨ha, hb⟩
    · intro d₀ hone
      rw [htd] at hone
      obtain ⟨ha, id, hb, hid, hc⟩ := hc1 d₀ hone
      rw [ht1, ht2, ht3, ht4]
      exact ⟨ha, id, hb, Nat.lt_succ_of_lt hid, by rw [hpres id hid]; exact hc⟩
    · intro hlen
      rw [htd] at hlen
      obtain ⟨ha, ids, hb, hmaps, hbounds⟩ := hc2 hlen
      rw [ht1, ht2, ht3, ht4, htd]
      refine ⟨ha, ids, hb, ?_, fun i hi => Nat.lt_succ_of_lt (hbounds i hi)⟩
      rw [← hmaps]
      refine List.map_congr_left ?_
      intro i hi
      exact hpres i (hbounds i hi)

theorem scanDocs_tchar (T : String) (ds : List Doc) :
    GoodScan (scanDocs ds) ∧ TCharScan T ds (scanDocs ds) := by
  induction ds using List.reverseRecOn with
  | nil =>
    refine ⟨scanDocs_good [], ?_, ?_, ?_⟩
    · intro _
      exact ⟨rfl, rfl⟩
    · intro d₀ habs
      simp [tdocs] at habs
    · intro habs
      simp [tdocs] at habs
  | append_singleton ds d ih =>
    have h1 : scanDocs (ds ++ [d]) = scanStep (scanDocs ds) d := by
      unfold scanDocs
      rw [List.foldl_append]
      rfl
    rw [h1]
    exact ⟨scanStep_good _ d ih.1, scanStep_tchar T ds d _ ih.1 ih.2⟩

/- ---------------------------------------------------------------------
Duplicate handling through init_graph (claim C8).  The edge phase, component
phase and condensed-edge phase of init_graph never touch a node that is not
a value of the deduplicated node table (the only node ids the folds visit
come from table lookups), except that assigning components writes the `scc`
back-reference; so a duplicated node survives init_graph exactly as scanned,
up to its `scc` field. ----------------------------------------------- -/

theorem modNode_duplicated (lib : Library) (id : Nat) (f : Node → Node) :
    (modNode lib id f).duplicated = lib.duplicated := rfl

theorem addOuterRef_fields (lib : Library) (tag : String) (nid : Nat) :
    (addOuterRef lib tag nid).nodes = lib.nodes ∧
    (addOuterRef lib tag nid).duplicated = lib.duplicated ∧
    (addOuterRef lib tag nid).nodeArena = lib.nodeArena := by
  unfold addOuterRef
  cases lookupA lib.outerTagRefs tag with
  | some l => exact ⟨rfl, rfl, rfl⟩
  | none => exact ⟨rfl, rfl, rfl⟩

theorem linkEdgesForNode_fields (lib : Library) (nid : Nat) :
    (linkEdgesForNode lib nid).nodes = lib.nodes ∧
    (linkEdgesForNode lib nid).duplicated = lib.duplicated := by
  unfold linkEdgesForNode
  cases getNode lib nid with
  | none => exact ⟨rfl, rfl⟩
  | some n =>
    refine foldl_preserve
      (P := fun (l : Library) => l.nodes = lib.nodes ∧ l.duplicated = lib.duplicated)
      ?_ n.tags lib ⟨rfl, rfl⟩
    intro l tag hl
    unfold linkOneTag
    cases hp : lookupA l.nodes tag with
    | none =>
      obtain ⟨a1, a2, _⟩ := addOuterRef_fields l tag nid
      exact ⟨a1.trans hl.1, a2.trans hl.2⟩
    | some pid =>
      exact hl

theorem linkAllEdges_fields (lib : Library) :
    (linkAllEdges lib).nodes = lib.nodes ∧
    (linkAllEdges lib).duplicated = lib.duplicated := by
  unfold linkAllEdges
  refine foldl_preserve
    (P := fun (l : Library) => l.nodes = lib.nodes ∧ l.duplicated = lib.duplicated)
    ?_ lib.nodes lib ⟨rfl, rfl⟩
  intro l p hl
  obtain ⟨a1, a2⟩ := linkEdgesForNode_fields l p.2
  exact ⟨a1.trans hl.1, a2.trans hl.2⟩

theorem assignSccs_fields (lib : Library) :
    (assignSccs lib).nodes = lib.nodes ∧
    (assignSccs lib).duplicated = lib.duplicated := by
  unfold assignSccs
  refine foldl_preserve
    (P := fun (l : Library) => l.nodes = lib.nodes ∧ l.duplicated = lib.duplicated)
    ?_ lib.sccs lib ⟨rfl, rfl⟩
  intro l p hl
  cases getScc l p.2 with
  | none => exact hl
  | some scc =>
    refine foldl_preserve
      (P := fun (l2 : Library) => l2.nodes = lib.nodes ∧ l2.duplicated = lib.duplicated)
      ?_ scc.nodes l hl
    intro l2 nid hl2
    exact hl2

theorem deriveEdgesForScc_fields (lib : Library) (sid : Nat) :
    (deriveEdgesForScc lib sid).nodes = lib.nodes ∧
    (deriveEdgesForScc lib sid).duplicated = lib.duplicated ∧
    (deriveEdgesForScc lib sid).nodeArena = lib.nodeArena := by
  unfold deriveEdgesForScc
  cases getScc lib sid with
  | none => exact ⟨rfl, rfl, rfl⟩
  | some scc =>
    refine foldl_preserve
      (P := fun (l : Library) => l.nodes = lib.nodes ∧ l.duplicated = lib.duplicated ∧
        l.nodeArena = lib.nodeArena) ?_ scc.nodes lib ⟨rfl, rfl, rfl⟩
    intro l nid hl
    cases getNode l nid with
    | none => exact hl
    | some n => exact hl

theorem deriveAllSccEdges_fields (lib : Library) :
    (deriveAllSccEdges lib).nodes = lib.nodes ∧
    (deriveAllSccEdges lib).duplicated = lib.duplicated ∧
    (deriveAllSccEdges lib).nodeArena = lib.nodeArena := by
  unfold deriveAllSccEdges
  refine foldl_preserve
    (P := fun (l : Library) => l.nodes = lib.nodes ∧ l.duplicated = lib.duplicated ∧
      l.nodeArena = lib.nodeArena) ?_ lib.sccs lib ⟨rfl, rfl, rfl⟩
  intro l p hl
  obtain ⟨a1, a2, a3⟩ := deriveEdgesForScc_fields l p.2
  exact ⟨a1.trans hl.1, a2.trans hl.2.1, a3.trans hl.2.2⟩

theorem initGraph_fields (docs : List Doc) :
    (initGraph docs).nodes = (scanDocs docs).table ∧
    (initGraph docs).duplicated = (scanDocs docs).dups := by
  unfold initGraph
  dsimp only
  obtain ⟨d1, d2, _⟩ := deriveAllSccEdges_fields
    (assignSccs { linkAllEdges (libOfScan (scanDocs docs)) with
      sccArena := (linkAllEdges (libOfScan (scanDocs docs))).sccArena ++
        (tarjanAll (linkAllEdges (libOfScan (scanDocs docs)))).sccAcc,
      sccNext := (tarjanAll (linkAllEdges (libOfScan (scanDocs docs)))).sccNext,
      sccs := (tarjanAll (linkAllEdges (libOfScan (scanDocs docs)))).sccTable })
  rw [d1, d2]
  obtain ⟨a1, a2⟩ := assignSccs_fields
    { linkAllEdges (libOfScan (scanDocs docs)) with
      sccArena := (linkAllEdges (libOfScan (scanDocs docs))).sccArena ++
        (tarjanAll (linkAllEdges (libOfScan (scanDocs docs)))).sccAcc,
      sccNext := (tarjanAll (linkAllEdges (libOfScan (scanDocs docs)))).sccNext,
      sccs := (tarjanAll (linkAllEdges (libOfScan (scanDocs docs)))).sccTable }
  rw [a1, a2]
  obtain ⟨b1, b2⟩ := linkAllEdges_fields (libOfScan (scanDocs docs))
  exact ⟨b1, b2⟩

theorem linkEdgesForNode_pres (lib : Library) (nid i : Nat)
    (hi : ∀ w, lookupA lib.nodes w ≠ some i) (hnid : nid ≠ i) :
    (linkEdgesForNode lib nid).nodes = lib.nodes ∧
    getNode (linkEdgesForNode lib nid) i = getNode lib i := by
  unfold linkEdgesForNode
  cases getNode lib nid with
  | none => exact ⟨rfl, rfl⟩
  | some n =>
    refine foldl_preserve
      (P := fun (l : Library) => l.nodes = lib.nodes ∧ getNode l i = getNode lib i)
      ?_ n.tags lib ⟨rfl, rfl⟩
    intro l tag hl
    obtain ⟨h1, h3⟩ := hl
    unfold linkOneTag
    cases hp : lookupA l.nodes tag with
    | none =>
      obtain ⟨a1, _, a3⟩ := addOuterRef_fields l tag nid
      refine ⟨a1.trans h1, ?_⟩
      unfold getNode
      rw [a3]
      exact h3
    | some pid =>
      have hpid : i ≠ pid := by
        intro he
        rw [h1] at hp
        exact hi tag (by rw [← he] at hp; exact hp)
      dsimp only
      refine ⟨h1, ?_⟩
      rw [getNode_modNode, if_neg hpid, getNode_modNode, if_neg (Ne.symm hnid)]
      exact h3

theorem linkAllEdges_pres (lib : Library) (i : Nat)
    (hnd : (lib.nodes.map Prod.fst).Nodup)
    (hi : ∀ w, lookupA lib.nodes w ≠ some i) :
    (linkAllEdges lib).nodes = lib.nodes ∧
    getNode (linkAllEdges lib) i = getNode lib i := by
  unfold linkAllEdges
  refine foldl_preserve_mem
    (P := fun (l : Library) => l.nodes = lib.nodes ∧ getNode l i = getNode lib i)
    lib.nodes _ ?_ lib ⟨rfl, rfl⟩
  intro l p hp hl
  obtain ⟨h1, h3⟩ := hl
  have hpv : lookupA lib.nodes p.1 = some p.2 := by
    obtain ⟨a, b⟩ := p
    exact lookupA_of_mem_nodup lib.nodes a b hnd hp
  have hp2 : p.2 ≠ i := by
    intro he
    rw [he] at hpv
    exact hi p.1 hpv
  have hi2 : ∀ w, lookupA l.nodes w ≠ some i := by
    intro w
    rw [h1]
    exact hi w
  obtain ⟨g1, g3⟩ := linkEdgesForNode_pres l p.2 i hi2 hp2
  exact ⟨g1.trans h1, g3.trans h3⟩

theorem modNode_getNode_eraseScc (l : Library) (id i : Nat) (x : Option Nat) :
    (getNode (modNode l id (fun n => { n with scc := x })) i).map eraseScc =
      (getNode l i).map eraseScc := by
  rw [getNode_modNode]
  by_cases h : i = id
  · subst h
    rw [if_pos rfl]
    cases getNode l i with
    | none => rfl
    | some n => rfl
  · rw [if_neg h]

theorem assignSccs_getNode (lib : Library) (i : Nat) :
    (getNode (assignSccs lib) i).map eraseScc = (getNode lib i).map eraseScc := by
  unfold assignSccs
  refine foldl_preserve
    (P := fun (l : Library) =>
      (getNode l i).map eraseScc = (getNode lib i).map eraseScc)
    ?_ lib.sccs lib rfl
  intro l p hl
  cases getScc l p.2 with
  | none => exact hl
  | some scc =>
    refine foldl_preserve
      (P := fun (l2 : Library) =>
        (getNode l2 i).map eraseScc = (getNode lib i).map eraseScc)
      ?_ scc.nodes l hl
    intro l2 nid hl2
    exact (modNode_getNode_eraseScc l2 nid i (some p.2)).trans hl2

theorem initGraph_getNode (docs : List Doc) (i : Nat)
    (hi : ∀ w, lookupA (scanDocs docs).table w ≠ some i) :
    (getNode (initGraph docs) i).map eraseScc =
      (lookupA (scanDocs docs).arena i).map eraseScc := by
  obtain ⟨_, _, _, _, h4⟩ := scanDocs_good docs
  unfold initGraph
  dsimp only
  obtain ⟨_, _, d3⟩ := deriveAllSccEdges_fields
    (assignSccs { linkAllEdges (libOfScan (scanDocs docs)) with
      sccArena := (linkAllEdges (libOfScan (scanDocs docs))).sccArena ++
        (tarjanAll (linkAllEdges (libOfScan (scanDocs docs)))).sccAcc,
      sccNext := (tarjanAll (linkAllEdges (libOfScan (scanDocs docs)))).sccNext,
      sccs := (tarjanAll (linkAllEdges (libOfScan (scanDocs docs)))).sccTable })
  unfold getNode
  rw [d3]
  have ha := assignSccs_getNode
    { linkAllEdges (libOfScan (scanDocs docs)) with
      sccArena := (linkAllEdges (libOfScan (scanDocs docs))).sccArena ++
        (tarjanAll (linkAllEdges (libOfScan (scanDocs docs)))).sccAcc,
      sccNext := (tarjanAll (linkAllEdges (libOfScan (scanDocs docs)))).sccNext,
      sccs := (tarjanAll (linkAllEdges (libOfScan (scanDocs docs)))).sccTable } i
  unfold getNode at ha
  rw [ha]
  obtain ⟨_, g3⟩ := linkAllEdges_pres (libOfScan (scanDocs docs)) i h4 hi
  unfold getNode at g3
  rw [g3]
  rfl

theorem mem_tdocs (T : String) (ds : List Doc) (d : Doc) (h : d ∈ tdocs T ds) :
    d.wikiTag = T := by
  unfold tdocs at h
  rw [List.mem_filter] at h
  exact of_decide_eq_true h.2

/-- A node recorded as a duplicate of an absent table key can never be the
value of any table entry: table values are consistent with arena wiki-tags. -/
theorem dupId_not_in_table (st : ScanState) (T : String) (i : Nat) (n : Node)
    (hg : GoodScan st) (htab : lookupA st.table T = none)
    (ha : lookupA st.arena i = some n) (hwt : n.wikiTag = T) :
    ∀ w, lookupA st.table w ≠ some i := by
  intro w hw
  obtain ⟨-, h1, -, -, -⟩ := hg
  obtain ⟨n', hn', hwt'⟩ := h1 w i hw
  rw [ha, Option.some.injEq] at hn'
  subst hn'
  rw [hwt] at hwt'
  subst hwt'
  rw [htab] at hw
  exact Option.noConfusion hw

/-- Claim C8: when at least two scanned documents declare the same
wiki-tag identifier `T`, init_graph leaves the node table without an
entry for `T`, records the corresponding node ids in the duplicated table
under `T` (their arena nodes being exactly the scanned nodes of those
documents, in scan order, up to the component back-reference), no key of
the node table resolves to any of these ids, and none of these nodes
carries any parent or child edge. -/
theorem initGraph_duplicates (docs : List Doc) (T : String)
    (h2 : 2 ≤ (tdocs T docs).length) :
    lookupA (initGraph docs).nodes T = none ∧
    ∃ ids, lookupA (initGraph docs).duplicated T = some ids ∧
      ids.map (fun i => (getNode (initGraph docs) i).map eraseScc) =
        (tdocs T docs).map (fun d => some (eraseScc (mkNode d))) ∧
      (∀ i ∈ ids, ∀ w, lookupA (initGraph docs).nodes w ≠ some i) ∧
      (∀ i ∈ ids, ∀ n, getNode (initGraph docs) i = some n →
        n.parents = [] ∧ n.children = []) := by
  obtain ⟨hf1, hf2⟩ := initGraph_fields docs
  have hg := scanDocs_good docs
  obtain ⟨-, htchar⟩ := scanDocs_tchar T docs
  obtain ⟨htabT, ids, hdups, hmap, -⟩ := htchar.2.2 h2
  have hper : ∀ i ∈ ids, ∃ d, d ∈ tdocs T docs ∧
      lookupA (scanDocs docs).arena i = some (mkNode d) := by
    intro i hi
    have hmem : lookupA (scanDocs docs).arena i ∈
        (tdocs T docs).map (fun d => some (mkNode d)) := by
      rw [← hmap]
      exact List.mem_map_of_mem _ hi
    obtain ⟨d, hd, hde⟩ := List.mem_map.mp hmem
    exact ⟨d, hd, hde.symm⟩
  have hnotin : ∀ i ∈ ids, ∀ w, lookupA (scanDocs docs).table w ≠ some i := by
    intro i hi
    obtain ⟨d, hd, hde⟩ := hper i hi
    exact dupId_not_in_table (scanDocs docs) T i (mkNode d) hg htabT hde
      (mem_tdocs T docs d hd)
  refine ⟨by rw [hf1]; exact htabT, ids, by rw [hf2]; exact hdups, ?_, ?_, ?_⟩
  · have hcong : ids.map (fun i => (getNode (initGraph docs) i).map eraseScc) =
        ids.map (fun i => (lookupA (scanDocs docs).arena i).map eraseScc) := by
      refine List.map_congr_left ?_
      intro i hi
      exact initGraph_getNode docs i (hnotin i hi)
    have hcomp : ids.map (fun i => (lookupA (scanDocs docs).arena i).map eraseScc) =
        (ids.map (fun i => lookupA (scanDocs docs).arena i)).map (Option.map eraseScc) := by
      rw [List.map_map]
      rfl
    rw [hcong, hcomp, hmap, List.map_map]
    rfl
  · intro i hi w
    rw [hf1]
    exact hnotin i hi w
  · intro i hi n hn
    obtain ⟨d, hd, hde⟩ := hper i hi
    have hthis := initGraph_getNode docs i (hnotin i hi)
    rw [hn, hde] at hthis
    simp only [Option.map_some', Option.some.injEq] at hthis
    exact ⟨congrArg Node.parents hthis, congrArg Node.children hthis⟩

/-- Witness for C8: scenario D, two notes claiming `Dup` and a third note
referencing it. -/
theorem initGraph_duplicates_witness :
    2 ≤ (tdocs "Dup" [c8Doc1, c8DocO, c8Doc2]).length ∧
    (lookupA (initGraph [c8Doc1, c8DocO, c8Doc2]).nodes "Dup" = none ∧
     ∃ ids, lookupA (initGraph [c8Doc1, c8DocO, c8Doc2]).duplicated "Dup" = some ids ∧
       ids.map (fun i => (getNode (initGraph [c8Doc1, c8DocO, c8Doc2]) i).map eraseScc) =
         (tdocs "Dup" [c8Doc1, c8DocO, c8Doc2]).map (fun d => some (eraseScc (mkNode d))) ∧
       (∀ i ∈ ids, ∀ w, lookupA (initGraph [c8Doc1, c8DocO, c8Doc2]).nodes w ≠ some i) ∧
       (∀ i ∈ ids, ∀ n, getNode (initGraph [c8Doc1, c8DocO, c8Doc2]) i = some n →
         n.parents = [] ∧ n.children = [])) :=
  ⟨by decide, initGraph_duplicates [c8Doc1, c8DocO, c8Doc2] "Dup" (by decide)⟩

/- ---------------------------------------------------------------------
Self-reference machinery (claim C10).  The tag-inheritance pass only writes
the three bookkeeping fields erased by `nodeCore`; the edge phase of
init_graph only ever appends to parent lists; combining the two, a node
whose declared tags contain its own table key ends up with itself among its
parents after a full build. -------------------------------------------- -/

theorem modNode_getNode_proj {β : Type} (l : Library) (id i : Nat) (f : Node → Node)
    (proj : Node → β) (hf : ∀ n, proj (f n) = proj n) :
    (getNode (modNode l id f) i).map proj = (getNode l i).map proj := by
  rw [getNode_modNode]
  by_cases h : i = id
  · subst h
    rw [if_pos rfl]
    cases getNode l i with
    | none => rfl
    | some n =>
      simp only [Option.map_some']
      rw [hf]
  · rw [if_neg h]

theorem core_saveNode (n : Node) : nodeCore (saveNode n) = nodeCore n := by
  unfold saveNode
  by_cases h : (!n.frontmatterModified && listSetEq n.inheritTags n.originalInheritTags) = true
  · rw [if_pos h]
  · rw [if_neg h]
    rfl

theorem reset_getNode_core (lib : Library) (i : Nat) :
    (getNode (resetInheritTags lib) i).map nodeCore = (getNode lib i).map nodeCore := by
  unfold resetInheritTags
  refine foldl_preserve (P := fun (l : Library) =>
    (getNode l i).map nodeCore = (getNode lib i).map nodeCore) ?_ lib.nodes lib rfl
  intro l p hl
  exact (modNode_getNode_proj l p.2 i (fun n => { n with inheritTags := [] })
    nodeCore (fun n => rfl)).trans hl

theorem rec_getNode_core (save : Bool) (i : Nat) (fuel : Nat) :
    ∀ (lib : Library) (sccId : Nat) (acc : List String),
      (getNode (applyTagInheritanceRec save fuel lib sccId acc) i).map nodeCore =
        (getNode lib i).map nodeCore := by
  induction fuel with
  | zero => intro lib _ _; rfl
  | succ fuel ih =>
    intro lib sccId acc
    unfold applyTagInheritanceRec
    cases hscc : getScc lib sccId with
    | none => rfl
    | some scc =>
      dsimp only
      refine foldl_preserve (P := fun (l : Library) =>
        (getNode l i).map nodeCore = (getNode lib i).map nodeCore) ?_ scc.children _ ?_
      · intro l cid hl
        exact (ih l cid _).trans hl
      · refine foldl_preserve (P := fun (l : Library) =>
          (getNode l i).map nodeCore = (getNode lib i).map nodeCore) ?_ scc.nodes lib rfl
        intro l nid hl
        cases save with
        | false =>
          exact (modNode_getNode_proj l nid i (fun n => addInheritTags n acc)
            nodeCore (fun n => rfl)).trans hl
        | true =>
          exact (modNode_getNode_proj _ nid i saveNode nodeCore core_saveNode).trans
            ((modNode_getNode_proj l nid i (fun n => addInheritTags n acc)
              nodeCore (fun n => rfl)).trans hl)

theorem applyTagInheritance_getNode_core (save : Bool) (fuel : Nat) (lib : Library) (i : Nat) :
    (getNode (applyTagInheritance save fuel lib) i).map nodeCore =
      (getNode lib i).map nodeCore := by
  unfold applyTagInheritance
  dsimp only
  refine foldl_preserve (P := fun (l : Library) =>
    (getNode l i).map nodeCore = (getNode lib i).map nodeCore)
    ?_ (rootSccs (resetInheritTags lib)) _ (reset_getNode_core lib i)
  intro l p hl
  exact (rec_getNode_core save i fuel l p.2 []).trans hl

theorem modNode_parents_mem (l : Library) (id i x : Nat) (f : Node → Node)
    (hf : ∀ n, x ∈ n.parents → x ∈ (f n).parents)
    (h : ∃ m, getNode l i = some m ∧ x ∈ m.parents) :
    ∃ m, getNode (modNode l id f) i = some m ∧ x ∈ m.parents := by
  obtain ⟨m, hm, hx⟩ := h
  rw [getNode_modNode]
  by_cases hi : i = id
  · subst hi
    rw [if_pos rfl, hm]
    exact ⟨f m, rfl, hf m hx⟩
  · rw [if_neg hi]
    exact ⟨m, hm, hx⟩

theorem modNode_getNode_isSome (l : Library) (id i : Nat) (f : Node → Node) :
    (getNode (modNode l id f) i).isSome = (getNode l i).isSome := by
  rw [getNode_modNode]
  by_cases h : i = id
  · subst h
    rw [if_pos rfl]
    cases getNode l i with
    | none => rfl
    | some n => rfl
  · rw [if_neg h]

theorem linkOneTag_nodes_tags (lib : Library) (nid i : Nat) (l : Library) (tag : String)
    (h1 : l.nodes = lib.nodes)
    (h2 : (getNode l i).map Node.tags = (getNode lib i).map Node.tags) :
    (linkOneTag nid l tag).nodes = lib.nodes ∧
    (getNode (linkOneTag nid l tag) i).map Node.tags = (getNode lib i).map Node.tags := by
  unfold linkOneTag
  cases hp : lookupA l.nodes tag with
  | none =>
    obtain ⟨a1, _, a3⟩ := addOuterRef_fields l tag nid
    refine ⟨a1.trans h1, ?_⟩
    unfold getNode
    rw [a3]
    exact h2
  | some pid =>
    dsimp only
    refine ⟨h1, ?_⟩
    rw [modNode_getNode_proj _ pid i
          (fun m => { m with children := m.children ++ [nid] }) Node.tags (fun n => rfl),
        modNode_getNode_proj l nid i
          (fun m => { m with parents := m.parents ++ [pid] }) Node.tags (fun n => rfl)]
    exact h2

theorem linkOneTag_some (lib : Library) (nid i : Nat) (l : Library) (tag : String)
    (h1 : l.nodes = lib.nodes) (hm : (getNode l i).isSome = true) :
    (linkOneTag nid l tag).nodes = lib.nodes ∧
    (getNode (linkOneTag nid l tag) i).isSome = true := by
  unfold linkOneTag
  cases hp : lookupA l.nodes tag with
  | none =>
    obtain ⟨a1, _, a3⟩ := addOuterRef_fields l tag nid
    refine ⟨a1.trans h1, ?_⟩
    unfold getNode
    rw [a3]
    exact hm
  | some pid =>
    dsimp only
    refine ⟨h1, ?_⟩
    rw [modNode_getNode_isSome, modNode_getNode_isSome]
    exact hm

theorem linkOneTag_parent_mem (lib : Library) (nid i x : Nat) (l : Library) (tag : String)
    (h1 : l.nodes = lib.nodes)
    (hm : ∃ m, getNode l i = some m ∧ x ∈ m.parents) :
    (linkOneTag nid l tag).nodes = lib.nodes ∧
    ∃ m, getNode (linkOneTag nid l tag) i = some m ∧ x ∈ m.parents := by
  unfold linkOneTag
  cases hp : lookupA l.nodes tag with
  | none =>
    obtain ⟨a1, _, a3⟩ := addOuterRef_fields l tag nid
    obtain ⟨m, hm2, hx⟩ := hm
    exact ⟨a1.trans h1, m, by unfold getNode; rw [a3]; exact hm2, hx⟩
  | some pid =>
    dsimp only
    refine ⟨h1, ?_⟩
    refine modNode_parents_mem _ pid i x _ (fun n2 hx => hx) ?_
    exact modNode_parents_mem l nid i x _ (fun n2 hx => List.mem_append_left _ hx) hm

theorem linkOneTag_self (lib : Library) (w : String) (id : Nat) (l : Library)
    (h1 : l.nodes = lib.nodes) (htab : lookupA lib.nodes w = some id)
    (hm : (getNode l id).isSome = true) :
    (linkOneTag id l w).nodes = lib.nodes ∧
    ∃ m, getNode (linkOneTag id l w) id = some m ∧ id ∈ m.parents := by
  unfold linkOneTag
  have hp : lookupA l.nodes w = some id := by rw [h1]; exact htab
  rw [hp]
  dsimp only
  refine ⟨h1, ?_⟩
  obtain ⟨m, hm2⟩ := Option.isSome_iff_exists.mp hm
  refine modNode_parents_mem _ id id id _ (fun n2 hx => hx) ?_
  rw [getNode_modNode, if_pos rfl, hm2]
  exact ⟨_, rfl, List.mem_append_right _ (List.mem_singleton_self id)⟩

theorem tagFold_self (lib : Library) (w : String) (id : Nat) :
    ∀ (ts : List String) (l : Library),
      l.nodes = lib.nodes → lookupA lib.nodes w = some id →
      (getNode l id).isSome = true → w ∈ ts →
      (ts.foldl (linkOneTag id) l).nodes = lib.nodes ∧
      ∃ m, getNode (ts.foldl (linkOneTag id) l) id = some m ∧ id ∈ m.parents := by
  intro ts
  induction ts with
  | nil =>
    intro l _ _ _ hw
    exact absurd hw (List.not_mem_nil w)
  | cons t ts ih =>
    intro l h1 htab hm hw
    rw [List.foldl_cons]
    by_cases hwt : w = t
    · subst hwt
      obtain ⟨g1, gm⟩ := linkOneTag_self lib w id l h1 htab hm
      refine foldl_preserve (P := fun (l2 : Library) => l2.nodes = lib.nodes ∧
        ∃ m, getNode l2 id = some m ∧ id ∈ m.parents) ?_ ts _ ⟨g1, gm⟩
      intro l2 tag hl2
      exact linkOneTag_parent_mem lib id id id l2 tag hl2.1 hl2.2
    · rcases List.mem_cons.mp hw with he | hw2
      · exact absurd he hwt
      · obtain ⟨s1, s2⟩ := linkOneTag_some lib id id l t h1 hm
        exact ih (linkOneTag id l t) s1 htab s2 hw2

theorem linkEdgesForNode_parent_mem (lib : Library) (l : Library) (nid i x : Nat)
    (h1 : l.nodes = lib.nodes)
    (hm : ∃ m, getNode l i = some m ∧ x ∈ m.parents) :
    (linkEdgesForNode l nid).nodes = lib.nodes ∧
    ∃ m, getNode (linkEdgesForNode l nid) i = some m ∧ x ∈ m.parents := by
  unfold linkEdgesForNode
  cases getNode l nid with
  | none => exact ⟨h1, hm⟩
  | some n =>
    refine foldl_preserve (P := fun (l2 : Library) => l2.nodes = lib.nodes ∧
      ∃ m, getNode l2 i = some m ∧ x ∈ m.parents) ?_ n.tags l ⟨h1, hm⟩
    intro l2 tag hl2
    exact linkOneTag_parent_mem lib nid i x l2 tag hl2.1 hl2.2

theorem linkEdgesForNode_nodes_tags (lib : Library) (l : Library) (nid i : Nat)
    (h1 : l.nodes = lib.nodes)
    (h2 : (getNode l i).map Node.tags = (getNode lib i).map Node.tags) :
    (linkEdgesForNode l nid).nodes = lib.nodes ∧
    (getNode (linkEdgesForNode l nid) i).map Node.tags = (getNode lib i).map Node.tags := by
  unfold linkEdgesForNode
  cases getNode l nid with
  | none => exact ⟨h1, h2⟩
  | some n =>
    refine foldl_preserve (P := fun (l2 : Library) => l2.nodes = lib.nodes ∧
      (getNode l2 i).map Node.tags = (getNode lib i).map Node.tags) ?_ n.tags l ⟨h1, h2⟩
    intro l2 tag hl2
    exact linkOneTag_nodes_tags lib nid i l2 tag hl2.1 hl2.2

theorem linkEdgesForNode_self (lib : Library) (w : String) (id : Nat) (l : Library)
    (h1 : l.nodes = lib.nodes)
    (h2 : (getNode l id).map Node.tags = (getNode lib id).map Node.tags)
    (htab : lookupA lib.nodes w = some id)
    (hw : ∃ n, getNode lib id = some n ∧ w ∈ n.tags) :
    (linkEdgesForNode l id).nodes = lib.nodes ∧
    ∃ m, getNode (linkEdgesForNode l id) id = some m ∧ id ∈ m.parents := by
  obtain ⟨n, hn, hwn⟩ := hw
  unfold linkEdgesForNode
  cases hl : getNode l id with
  | none =>
    rw [hl, hn] at h2
    exact absurd h2 (by simp)
  | some m0 =>
    rw [hl, hn] at h2
    simp only [Option.map_some', Option.some.injEq] at h2
    refine tagFold_self lib w id m0.tags l h1 htab ?_ ?_
    · rw [hl]
      rfl
    · rw [h2]
      exact hwn

theorem linkAllEdges_self_parent (lib : Library) (w : String) (id : Nat)
    (htab : lookupA lib.nodes w = some id)
    (hw : ∃ n, getNode lib id = some n ∧ w ∈ n.tags) :
    ∃ m, getNode (linkAllEdges lib) id = some m ∧ id ∈ m.parents := by
  obtain ⟨l1, l2, hsplit⟩ := List.append_of_mem (lookupA_mem lib.nodes w id htab)
  unfold linkAllEdges
  rw [hsplit, List.foldl_append, List.foldl_cons]
  have hA : (List.foldl (fun l p => linkEdgesForNode l p.2) lib l1).nodes = lib.nodes ∧
      (getNode (List.foldl (fun l p => linkEdgesForNode l p.2) lib l1) id).map Node.tags =
        (getNode lib id).map Node.tags := by
    refine foldl_preserve (P := fun (l3 : Library) => l3.nodes = lib.nodes ∧
      (getNode l3 id).map Node.tags = (getNode lib id).map Node.tags) ?_ l1 lib ⟨rfl, rfl⟩
    intro l3 p hl3
    exact linkEdgesForNode_nodes_tags lib l3 p.2 id hl3.1 hl3.2
  have hB := linkEdgesForNode_self lib w id _ hA.1 hA.2 htab hw
  refine (foldl_preserve (P := fun (l3 : Library) => l3.nodes = lib.nodes ∧
    ∃ m, getNode l3 id = some m ∧ id ∈ m.parents) ?_ l2 _ hB).2
  intro l3 p hl3
  exact linkEdgesForNode_parent_mem lib l3 p.2 id id hl3.1 hl3.2

theorem assignSccs_parent_mem (l : Library) (i x : Nat)
    (hm : ∃ m, getNode l i = some m ∧ x ∈ m.parents) :
    ∃ m, getNode (assignSccs l) i = some m ∧ x ∈ m.parents := by
  obtain ⟨m, hm2, hx⟩ := hm
  have he := assignSccs_getNode l i
  rw [hm2] at he
  cases hg : getNode (assignSccs l) i with
  | none =>
    rw [hg] at he
    exact absurd he (by simp)
  | some m2 =>
    rw [hg] at he
    simp only [Option.map_some', Option.some.injEq] at he
    refine ⟨m2, rfl, ?_⟩
    have hp := congrArg Node.parents he
    show x ∈ (eraseScc m2).parents
    rw [hp]
    exact hx

theorem deriveAllSccEdges_parent_mem (l : Library) (i x : Nat)
    (hm : ∃ m, getNode l i = some m ∧ x ∈ m.parents) :
    ∃ m, getNode (deriveAllSccEdges l) i = some m ∧ x ∈ m.parents := by
  obtain ⟨_, _, d3⟩ := deriveAllSccEdges_fields l
  obtain ⟨m, hm2, hx⟩ := hm
  refine ⟨m, ?_, hx⟩
  unfold getNode
  rw [d3]
  exact hm2

theorem initGraph_self_parent (docs : List Doc) (w : String) (id : Nat)
    (htab : lookupA (scanDocs docs).table w = some id)
    (hw : ∃ n, lookupA (scanDocs docs).arena id = some n ∧ w ∈ n.tags) :
    ∃ m, getNode (initGraph docs) id = some m ∧ id ∈ m.parents := by
  unfold initGraph
  dsimp only
  exact deriveAllSccEdges_parent_mem _ id id
    (assignSccs_parent_mem _ id id
      (linkAllEdges_self_parent (libOfScan (scanDocs docs)) w id htab hw))

theorem fullBuild_self_parent (docs : List Doc) (w : String) (id : Nat)
    (htab : lookupA (scanDocs docs).table w = some id)
    (hw : ∃ n, lookupA (scanDocs docs).arena id = some n ∧ w ∈ n.tags) :
    ∃ m, getNode (fullBuild docs) id = some m ∧ id ∈ m.parents := by
  obtain ⟨m, hm, hx⟩ := initGraph_self_parent docs w id htab hw
  unfold fullBuild
  have he := applyTagInheritance_getNode_core true (docs.length + 1) (initGraph docs) id
  rw [hm] at he
  cases hg : getNode (applyTagInheritance true (docs.length + 1) (initGraph docs)) id with
  | none =>
    rw [hg] at he
    exact absurd he (by simp)
  | some m2 =>
    rw [hg] at he
    simp only [Option.map_some', Option.some.injEq] at he
    refine ⟨m2, rfl, ?_⟩
    have hp := congrArg Node.parents he
    show id ∈ (nodeCore m2).parents
    rw [hp]
    exact hx

theorem stripHash_no_sigil (t : String) (h : hasHashSigil t = false) : stripHash t = t := by
  unfold stripHash
  unfold hasHashSigil at h
  split
  · rename_i rest heq
    rw [heq] at h
    exact absurd h (by simp)
  · rfl

/-- Every frontmatter attached to a created outcome is the one assembled by
mkFrontmatter from the call arguments. -/
theorem addNewEntry_created_fm (lib : Library) (title wikiTag : String)
    (aliases tags : List String) (description : String) (titleItems : List String)
    (confirm : Option Bool) (lib2 : Library) (out : Outcome) (fm : Frontmatter)
    (hok : addNewEntry lib title wikiTag aliases tags description titleItems confirm =
      .ok (lib2, out))
    (hfm : out = .createdNew fm ∨ out = .createdDuplicate fm) :
    fm = mkFrontmatter wikiTag aliases tags description := by
  unfold addNewEntry at hok
  rcases hfm with hfm | hfm <;> subst hfm <;> dsimp only at hok <;> split at hok
  · simp at hok
  · split at hok
    · simp at hok
    · split at hok
      · split at hok
        · simp at hok
        · simp at hok
      · split at hok
        · simp at hok
          exact hok.2.symm
        · split at hok
          · simp at hok
          · split at hok
            · simp at hok
            · simp at hok
              exact hok.2.symm
  · simp at hok
  · split at hok
    · simp at hok
    · split at hok
      · split at hok
        · simp at hok
          exact hok.2.symm
        · simp at hok
          exact hok.2.symm
      · split at hok
        · simp at hok
        · split at hok
          · simp at hok
          · split at hok
            · simp at hok
            · simp at hok

/-- Claim C10: every note created through addNewEntry is written with its
own wiki-tag as the first element of the frontmatter tags array and with
`#` plus the wiki-tag prepended to the aliases; consequently — the wiki-tag
carrying no `#` sigil — the normalised explicit tags contain the note's own
identifier, and on a subsequent full graph build in which the created note
is scanned as the unique claimant of its identifier, its node lists itself
among its parents. -/
theorem addNewEntry_self_reference
    (lib : Library) (title wikiTag : String) (aliases tags : List String)
    (description : String) (titleItems : List String) (confirm : Option Bool)
    (lib2 : Library) (out : Outcome) (fm : Frontmatter)
    (hok : addNewEntry lib title wikiTag aliases tags description titleItems confirm =
      .ok (lib2, out))
    (hfm : out = .createdNew fm ∨ out = .createdDuplicate fm)
    (hsig : hasHashSigil wikiTag = false) :
    fm.tags.head? = some wikiTag ∧
    fm.aliases.head? = some ("#" ++ wikiTag) ∧
    wikiTag ∈ fm.tags.map stripHash ∧
    (∀ (docs : List Doc) (d : Doc), d.tags = fm.tags →
      tdocs wikiTag docs = [d] →
      ∃ id m, lookupA (fullBuild docs).nodes wikiTag = some id ∧
        getNode (fullBuild docs) id = some m ∧ id ∈ m.parents) := by
  have hfme := addNewEntry_created_fm lib title wikiTag aliases tags description
    titleItems confirm lib2 out fm hok hfm
  subst hfme
  have hmem : wikiTag ∈ (mkFrontmatter wikiTag aliases tags description).tags.map stripHash := by
    show wikiTag ∈ (wikiTag :: tags).map stripHash
    rw [List.map_cons, stripHash_no_sigil wikiTag hsig]
    exact List.mem_cons_self _ _
  refine ⟨rfl, rfl, hmem, ?_⟩
  intro docs d hdt huniq
  obtain ⟨-, htchar⟩ := scanDocs_tchar wikiTag docs
  obtain ⟨-, id, htab, -, harena⟩ := htchar.2.1 d huniq
  obtain ⟨m, hm, hx⟩ := fullBuild_self_parent docs wikiTag id htab
    ⟨mkNode d, harena, by
      show wikiTag ∈ d.tags.map stripHash
      rw [hdt]
      exact hmem⟩
  refine ⟨id, m, ?_, hm, hx⟩
  have h1 : (fullBuild docs).nodes = (initGraph docs).nodes := by
    unfold fullBuild
    exact applyTagInheritance_nodes true (docs.length + 1) (initGraph docs)
  rw [h1, (initGraph_fields docs).1]
  exact htab

/-- Witness for C10: creating the entry `T` (title `t`) in the empty
library. -/
theorem addNewEntry_self_reference_witness :
    (addNewEntry emptyLib "t" "T" [] [] "" [] none =
       .ok (c10Lib2, .createdNew (mkFrontmatter "T" [] [] "")) ∧
     hasHashSigil "T" = false) ∧
    ((mkFrontmatter "T" [] [] "").tags.head? = some "T" ∧
     (mkFrontmatter "T" [] [] "").aliases.head? = some ("#" ++ "T") ∧
     "T" ∈ (mkFrontmatter "T" [] [] "").tags.map stripHash ∧
     (∀ (docs : List Doc) (d : Doc), d.tags = (mkFrontmatter "T" [] [] "").tags →
       tdocs "T" docs = [d] →
       ∃ id m, lookupA (fullBuild docs).nodes "T" = some id ∧
         getNode (fullBuild docs) id = some m ∧ id ∈ m.parents)) :=
  ⟨⟨by decide, by decide⟩,
   addNewEntry_self_reference emptyLib "t" "T" [] [] "" [] none c10Lib2
     (.createdNew (mkFrontmatter "T" [] [] "")) (mkFrontmatter "T" [] [] "")
     (by decide) (Or.inl rfl) (by decide)⟩

/- ---------------------------------------------------------------------
Scorer analysis (claim C7).  The code computes similarities as unreduced
integer fractions compared by cross-multiplication; relating them to the
specification rationals needs positivity of the denominators, which holds
exactly when both deduplicated sets are non-empty — the degenerate case is
the counterexample. ----------------------------------------------------- -/

theorem mem_insertAbsent_iff {α : Type} [DecidableEq α] (l : List α) (x t : α) :
    t ∈ insertAbsent l x ↔ t ∈ l ∨ t = x := by
  unfold insertAbsent
  by_cases hm : x ∈ l
  · rw [if_pos hm]
    constructor
    · exact Or.inl
    · intro h
      rcases h with h | h
      · exact h
      · rw [h]; exact hm
  · rw [if_neg hm]
    rw [List.mem_append, List.mem_singleton]

theorem nodup_insertAbsent {α : Type} [DecidableEq α] (l : List α) (x : α)
    (h : l.Nodup) : (insertAbsent l x).Nodup := by
  unfold insertAbsent
  by_cases hm : x ∈ l
  · rw [if_pos hm]; exact h
  · rw [if_neg hm]
    refine List.Nodup.append h (List.nodup_singleton x) ?_
    intro a ha hb
    rw [List.mem_singleton] at hb
    subst hb
    exact hm ha

theorem mem_jsSetOfList {α : Type} [DecidableEq α] (l : List α) (t : α) :
    t ∈ jsSetOfList l ↔ t ∈ l := by
  unfold jsSetOfList
  have key : ∀ (l2 : List α) (acc : List α),
      t ∈ l2.foldl insertAbsent acc ↔ t ∈ acc ∨ t ∈ l2 := by
    intro l2
    induction l2 with
    | nil => intro acc; simp
    | cons a l2 ih =>
      intro acc
      rw [List.foldl_cons, ih, mem_insertAbsent_iff]
      simp only [List.mem_cons]
      tauto
  rw [key l []]
  simp

theorem nodup_jsSetOfList {α : Type} [DecidableEq α] (l : List α) :
    (jsSetOfList l).Nodup := by
  unfold jsSetOfList
  have key : ∀ (l2 : List α) (acc : List α), acc.Nodup →
      (l2.foldl insertAbsent acc).Nodup := by
    intro l2
    induction l2 with
    | nil => intro acc h; exact h
    | cons a l2 ih =>
      intro acc h
      rw [List.foldl_cons]
      exact ih _ (nodup_insertAbsent acc a h)
  exact key l [] List.nodup_nil

theorem jsSetOfList_length_pos {α : Type} [DecidableEq α] (l : List α) (h : l ≠ []) :
    0 < (jsSetOfList l).length := by
  cases l with
  | nil => exact absurd rfl h
  | cons a l =>
    refine List.length_pos.mpr ?_
    intro he
    have : a ∈ jsSetOfList (a :: l) := (mem_jsSetOfList _ a).mpr (List.mem_cons_self a l)
    rw [he] at this
    exact absurd this (List.not_mem_nil a)

theorem length_le_of_nodup_subset {α : Type} [DecidableEq α] (l1 l2 : List α)
    (hnd : l1.Nodup) (hsub : l1 ⊆ l2) : l1.length ≤ l2.length :=
  List.Subperm.length_le (List.subperm_of_subset hnd hsub)

theorem fracLt_iff_toRat (a b : Frac) (ha : 0 < a.den) (hb : 0 < b.den) :
    fracLt a b = true ↔ a.toRat < b.toRat := by
  unfold fracLt Frac.toRat
  rw [decide_eq_true_eq]
  have ha2 : (0 : ℚ) < (a.den : ℚ) := by exact_mod_cast ha
  have hb2 : (0 : ℚ) < (b.den : ℚ) := by exact_mod_cast hb
  rw [div_lt_div_iff₀ ha2 hb2]
  exact_mod_cast Iff.rfl

theorem fracLe_iff_toRat (a b : Frac) (ha : 0 < a.den) (hb : 0 < b.den) :
    fracLe a b = true ↔ a.toRat ≤ b.toRat := by
  unfold fracLe Frac.toRat
  rw [decide_eq_true_eq]
  have ha2 : (0 : ℚ) < (a.den : ℚ) := by exact_mod_cast ha
  have hb2 : (0 : ℚ) < (b.den : ℚ) := by exact_mod_cast hb
  rw [div_le_div_iff₀ ha2 hb2]
  exact_mod_cast Iff.rfl

theorem jsMaxF_toRat (K M : Nat) (c : Frac) (hM : 0 < M) (hc : 0 < c.den) :
    ∃ f, jsMaxF (some ⟨K, M⟩) c = some f ∧ 0 < f.den ∧
      f.toRat = max ((K : ℚ) / (M : ℚ)) c.toRat := by
  unfold jsMaxF
  dsimp only
  by_cases hlt : fracLt ⟨K, M⟩ c = true
  · rw [if_pos hlt]
    refine ⟨c, rfl, hc, ?_⟩
    rw [max_eq_right]
    exact le_of_lt ((fracLt_iff_toRat ⟨K, M⟩ c hM hc).mp hlt)
  · rw [if_neg hlt]
    refine ⟨⟨K, M⟩, rfl, hM, ?_⟩
    rw [max_eq_left]
    · rfl
    · have h2 : ¬ (⟨K, M⟩ : Frac).toRat < c.toRat :=
        fun hq => hlt ((fracLt_iff_toRat ⟨K, M⟩ c hM hc).mpr hq)
      exact not_lt.mp h2

/-- The per-node scorer agrees with the specification formula whenever both
deduplicated sets are non-empty. -/
theorem scoreNode_sim (wikiTag : String) (aliases titleEntities : List String) (n : Node)
    (hte : titleEntities ≠ []) (hn : n.tags ++ n.aliases ≠ []) :
    ∃ f, (scoreNode wikiTag aliases titleEntities n).similarity = some f ∧ 0 < f.den ∧
      f.toRat = specSimilarity wikiTag aliases titleEntities n := by
  have hA : 0 < (jsSetOfList titleEntities).length := jsSetOfList_length_pos _ hte
  have hB : 0 < (jsSetOfList (n.tags ++ n.aliases)).length := jsSetOfList_length_pos _ hn
  have hm : 0 < Nat.min (jsSetOfList titleEntities).length
      (jsSetOfList (n.tags ++ n.aliases)).length := Nat.lt_min.mpr ⟨hA, hB⟩
  have hk : specIntersectionSize titleEntities n ≤
      Nat.min (jsSetOfList titleEntities).length
        (jsSetOfList (n.tags ++ n.aliases)).length := by
    refine Nat.le_min.mpr ⟨?_, ?_⟩
    · refine length_le_of_nodup_subset _ _ (nodup_jsSetOfList _) ?_
      intro x hx
      rw [mem_jsSetOfList] at hx ⊢
      exact List.mem_of_mem_filter hx
    · refine length_le_of_nodup_subset _ _ (nodup_jsSetOfList _) ?_
      intro x hx
      rw [mem_jsSetOfList] at hx
      have h2 := List.of_mem_filter hx
      rw [decide_eq_true_eq] at h2
      exact h2
  have hM2 : (0 : ℚ) < ((Nat.min (jsSetOfList titleEntities).length
      (jsSetOfList (n.tags ++ n.aliases)).length : Nat) : ℚ) := by exact_mod_cast hm
  have hb1 : ((specIntersectionSize titleEntities n : Nat) : ℚ) /
      ((Nat.min (jsSetOfList titleEntities).length
        (jsSetOfList (n.tags ++ n.aliases)).length : Nat) : ℚ) ≤ 1 := by
    rw [div_le_one hM2]
    exact_mod_cast hk
  unfold scoreNode specSimilarity
  dsimp only
  unfold specIntersectionSize at hb1 hk ⊢
  rw [if_neg hm.ne']
  by_cases hid : wikiTag = n.wikiTag
  · rw [if_pos hid, if_pos hid]
    obtain ⟨f, hf, hden, hrat⟩ := jsMaxF_toRat _ _ ⟨1, 1⟩ hm (by norm_num)
    refine ⟨f, hf, hden, ?_⟩
    rw [hrat, show ((⟨1, 1⟩ : Frac)).toRat = 1 from by norm_num [Frac.toRat]]
    exact max_eq_right hb1
  · rw [if_neg hid, if_neg hid]
    by_cases hcross : wikiTag ∈ n.tags ++ n.aliases ∨ n.wikiTag ∈ aliases
    · have hcb : (decide (wikiTag ∈ n.tags ++ n.aliases) ||
          decide (n.wikiTag ∈ aliases)) = true := by
        rw [Bool.or_eq_true, decide_eq_true_eq, decide_eq_true_eq]
        exact hcross
      rw [if_pos hcb, if_pos hcross]
      obtain ⟨f, hf, hden, hrat⟩ := jsMaxF_toRat _ _ ⟨7, 10⟩ hm (by norm_num)
      refine ⟨f, hf, hden, ?_⟩
      rw [hrat, show ((⟨7, 10⟩ : Frac)).toRat = 7 / 10 from by norm_num [Frac.toRat]]
    · have hcb : ¬ (decide (wikiTag ∈ n.tags ++ n.aliases) ||
          decide (n.wikiTag ∈ aliases)) = true := by
        rw [Bool.or_eq_true, decide_eq_true_eq, decide_eq_true_eq]
        exact hcross
      rw [if_neg hcb, if_neg hcross]
      exact ⟨_, rfl, hm, rfl⟩

theorem keepInfo_iff_specKeep (wikiTag : String) (aliases titleEntities : List String)
    (n : Node) (hte : titleEntities ≠ []) (hn : n.tags ++ n.aliases ≠ []) :
    keepInfo (scoreNode wikiTag aliases titleEntities n) = true ↔
      specKeep wikiTag aliases titleEntities n := by
  obtain ⟨f, hf, hden, hrat⟩ := scoreNode_sim wikiTag aliases titleEntities n hte hn
  unfold keepInfo specKeep
  rw [hf, Bool.or_eq_true, decide_eq_true_eq]
  have h12 : ((⟨1, 2⟩ : Frac)).toRat = 1 / 2 := by norm_num [Frac.toRat]
  have hiff : fracLt ⟨1, 2⟩ f = true ↔
      (1 : ℚ) / 2 < specSimilarity wikiTag aliases titleEntities n := by
    rw [fracLt_iff_toRat ⟨1, 2⟩ f (by norm_num) hden, h12, hrat]
  constructor
  · intro h
    rcases h with h | h
    · exact Or.inl (hiff.mp h)
    · exact Or.inr h
  · intro h
    rcases h with h | h
    · exact Or.inl (hiff.mpr h)
    · exact Or.inr h

theorem simBefore_total (a b : SimilarityInfo) :
    simBefore a b = true ∨ simBefore b a = true := by
  unfold simBefore
  cases ha : a.similarity with
  | none =>
    right
    cases b.similarity <;> rfl
  | some x =>
    cases hb : b.similarity with
    | none =>
      left
      rfl
    | some y =>
      rcases Nat.le_total (y.num * x.den) (x.num * y.den) with h | h
      · exact Or.inl (decide_eq_true h)
      · exact Or.inr (decide_eq_true h)

theorem simBefore_trans (a b c : SimilarityInfo)
    (hga : ∃ f, a.similarity = some f ∧ 0 < f.den)
    (hgb : ∃ f, b.similarity = some f ∧ 0 < f.den)
    (hgc : ∃ f, c.similarity = some f ∧ 0 < f.den)
    (h1 : simBefore a b = true) (h2 : simBefore b c = true) :
    simBefore a c = true := by
  obtain ⟨fa, hfa, hda⟩ := hga
  obtain ⟨fb, hfb, hdb⟩ := hgb
  obtain ⟨fc, hfc, hdc⟩ := hgc
  unfold simBefore at h1 h2 ⊢
  rw [hfa, hfb] at h1
  rw [hfb, hfc] at h2
  rw [hfa, hfc]
  dsimp only at h1 h2 ⊢
  rw [fracLe_iff_toRat fb fa hdb hda] at h1
  rw [fracLe_iff_toRat fc fb hdc hdb] at h2
  rw [fracLe_iff_toRat fc fa hdc hda]
  exact le_trans h2 h1

theorem mem_sortInsert (x y : SimilarityInfo) (l : List SimilarityInfo) :
    y ∈ sortInsert x l ↔ y = x ∨ y ∈ l := by
  induction l with
  | nil => simp [sortInsert]
  | cons z l ih =>
    unfold sortInsert
    by_cases h : simBefore x z = true
    · rw [if_pos h]
      rw [List.mem_cons, List.mem_cons]
    · rw [if_neg h]
      rw [List.mem_cons, ih, List.mem_cons]
      tauto

theorem sortInsert_pairwise (x : SimilarityInfo) (l : List SimilarityInfo)
    (hgx : ∃ f, x.similarity = some f ∧ 0 < f.den)
    (hgl : ∀ a ∈ l, ∃ f, a.similarity = some f ∧ 0 < f.den)
    (hs : l.Pairwise (fun a b => simBefore a b = true)) :
    (sortInsert x l).Pairwise (fun a b => simBefore a b = true) := by
  induction l with
  | nil => exact List.pairwise_singleton _ x
  | cons z l ih =>
    rw [List.pairwise_cons] at hs
    obtain ⟨hz, hl⟩ := hs
    unfold sortInsert
    by_cases h : simBefore x z = true
    · rw [if_pos h]
      rw [List.pairwise_cons]
      refine ⟨?_, List.pairwise_cons.mpr ⟨hz, hl⟩⟩
      intro b hb
      rcases List.mem_cons.mp hb with rfl | hb2
      · exact h
      · exact simBefore_trans x z b hgx (hgl z (List.mem_cons_self _ _))
          (hgl b (List.mem_cons_of_mem _ hb2)) h (hz b hb2)
    · rw [if_neg h]
      rw [List.pairwise_cons]
      refine ⟨?_, ih (fun a ha => hgl a (List.mem_cons_of_mem _ ha)) hl⟩
      intro b hb
      rcases (mem_sortInsert x b l).mp hb with heq | hb2
      · rw [heq]
        rcases simBefore_total x z with h2 | h2
        · exact absurd h2 h
        · exact h2
      · exact hz b hb2

theorem mem_jsSortDesc (a : SimilarityInfo) (l : List SimilarityInfo) :
    a ∈ jsSortDesc l ↔ a ∈ l := by
  induction l with
  | nil => exact Iff.rfl
  | cons x l ih =>
    unfold jsSortDesc
    rw [mem_sortInsert, ih, List.mem_cons]

theorem jsSortDesc_pairwise (l : List SimilarityInfo)
    (hgl : ∀ a ∈ l, ∃ f, a.similarity = some f ∧ 0 < f.den) :
    (jsSortDesc l).Pairwise (fun a b => simBefore a b = true) := by
  induction l with
  | nil => exact List.Pairwise.nil
  | cons x l ih =>
    unfold jsSortDesc
    refine sortInsert_pairwise x (jsSortDesc l) (hgl x (List.mem_cons_self _ _)) ?_
      (ih (fun a ha => hgl a (List.mem_cons_of_mem _ ha)))
    intro a ha
    exact hgl a (List.mem_cons_of_mem _ ((mem_jsSortDesc a l).mp ha))

/-- Claim C7 (counterexample): a table node with an empty tag/alias set
whose identifier equals the candidate identifier.  The specification
similarity is exactly 1 (identifier match), so the node must be returned;
the code computes `0/0` (NaN) for the base value, `Math.max(NaN, 1)` stays
NaN, the filter comparison is false, and the node is dropped. -/
theorem similarity_nan_counterexample :
    c7Node ∈ tableNodes c7Lib ∧ specKeep "X" [] [] c7Node ∧
    similarityAnalyze c7Lib "X" [] [] = [] := by
  refine ⟨by decide, Or.inl ?_, by decide⟩
  have h1 : specSimilarity "X" [] [] c7Node = 1 := by
    unfold specSimilarity
    dsimp only
    rw [if_pos (show "X" = c7Node.wikiTag from rfl)]
  rw [h1]
  norm_num

/-- Claim C7 (amended): whenever the candidate's titleEntities list and every
table node's tag/alias collection are non-empty, similarityAnalyze returns
exactly the scored nodes satisfying the specification filter (similarity
above one half, or intersection size above one), each returned similarity is
the specification value — the intersection-over-minimum ratio, raised to
exactly 1 on identifier equality and to at least 0.7 on a cross-reference —
and the result is sorted by that value, descending. -/
theorem similarityAnalyze_spec (lib : Library) (wikiTag : String)
    (aliases titleEntities : List String)
    (hte : titleEntities ≠ [])
    (hnodes : ∀ n ∈ tableNodes lib, n.tags ++ n.aliases ≠ []) :
    (∀ info, info ∈ similarityAnalyze lib wikiTag aliases titleEntities ↔
      (∃ n ∈ tableNodes lib, info = scoreNode wikiTag aliases titleEntities n ∧
        specKeep wikiTag aliases titleEntities n)) ∧
    (∀ info ∈ similarityAnalyze lib wikiTag aliases titleEntities,
      ∃ f, info.similarity = some f ∧
        f.toRat = specSimilarity wikiTag aliases titleEntities info.fm) ∧
    (similarityAnalyze lib wikiTag aliases titleEntities).Pairwise
      (fun a b => specSimilarity wikiTag aliases titleEntities b.fm ≤
        specSimilarity wikiTag aliases titleEntities a.fm) := by
  have hgood : ∀ a ∈ (tableNodes lib).map (scoreNode wikiTag aliases titleEntities),
      ∃ f, a.similarity = some f ∧ 0 < f.den := by
    intro a ha
    obtain ⟨n, hn, he⟩ := List.mem_map.mp ha
    obtain ⟨f, hf, hden, -⟩ := scoreNode_sim wikiTag aliases titleEntities n hte (hnodes n hn)
    rw [he] at hf
    exact ⟨f, hf, hden⟩
  have hmem : ∀ info, info ∈ similarityAnalyze lib wikiTag aliases titleEntities ↔
      (∃ n ∈ tableNodes lib, info = scoreNode wikiTag aliases titleEntities n ∧
        specKeep wikiTag aliases titleEntities n) := by
    intro info
    unfold similarityAnalyze
    rw [List.mem_filter, mem_jsSortDesc]
    constructor
    · rintro ⟨hmap, hkeep⟩
      obtain ⟨n, hn, he⟩ := List.mem_map.mp hmap
      rw [← he] at hkeep
      exact ⟨n, hn, he.symm,
        (keepInfo_iff_specKeep wikiTag aliases titleEntities n hte (hnodes n hn)).mp hkeep⟩
    · rintro ⟨n, hn, he, hkeep⟩
      refine ⟨List.mem_map.mpr ⟨n, hn, he.symm⟩, ?_⟩
      rw [he]
      exact (keepInfo_iff_specKeep wikiTag aliases titleEntities n hte (hnodes n hn)).mpr hkeep
  refine ⟨hmem, ?_, ?_⟩
  · intro info hinfo
    obtain ⟨n, hn, he, -⟩ := (hmem info).mp hinfo
    obtain ⟨f, hf, -, hrat⟩ := scoreNode_sim wikiTag aliases titleEntities n hte (hnodes n hn)
    rw [he]
    exact ⟨f, hf, hrat⟩
  · have hp := jsSortDesc_pairwise ((tableNodes lib).map (scoreNode wikiTag aliases titleEntities)) hgood
    have hp2 : (similarityAnalyze lib wikiTag aliases titleEntities).Pairwise
        (fun a b => simBefore a b = true) :=
      List.Pairwise.sublist (List.filter_sublist _) hp
    refine List.Pairwise.imp_of_mem ?_ hp2
    intro a b ha hb hab
    obtain ⟨na, hna, hea, -⟩ := (hmem a).mp ha
    obtain ⟨nb, hnb, heb, -⟩ := (hmem b).mp hb
    obtain ⟨fa, hfa, hda, hra⟩ := scoreNode_sim wikiTag aliases titleEntities na hte (hnodes na hna)
    obtain ⟨fb, hfb, hdb, hrb⟩ := scoreNode_sim wikiTag aliases titleEntities nb hte (hnodes nb hnb)
    rw [hea] at hab ⊢
    rw [heb] at hab ⊢
    show specSimilarity wikiTag aliases titleEntities nb ≤
      specSimilarity wikiTag aliases titleEntities na
    unfold simBefore at hab
    rw [hfa, hfb] at hab
    dsimp only at hab
    rw [fracLe_iff_toRat fb fa hdb hda] at hab
    rw [← hra, ← hrb]
    exact hab

/-- Witness for the amended C7 on a one-node library with non-empty sets. -/
theorem similarityAnalyze_spec_witness :
    ((["t1", "x"] : List String) ≠ [] ∧
     (∀ n ∈ tableNodes c7WitLib, n.tags ++ n.aliases ≠ [])) ∧
    ((∀ info, info ∈ similarityAnalyze c7WitLib "W" [] ["t1", "x"] ↔
       (∃ n ∈ tableNodes c7WitLib, info = scoreNode "W" [] ["t1", "x"] n ∧
         specKeep "W" [] ["t1", "x"] n)) ∧
     (∀ info ∈ similarityAnalyze c7WitLib "W" [] ["t1", "x"],
       ∃ f, info.similarity = some f ∧
         f.toRat = specSimilarity "W" [] ["t1", "x"] info.fm) ∧
     (similarityAnalyze c7WitLib "W" [] ["t1", "x"]).Pairwise
       (fun a b => specSimilarity "W" [] ["t1", "x"] b.fm ≤
         specSimilarity "W" [] ["t1", "x"] a.fm)) :=
  ⟨⟨by decide, by decide⟩,
   similarityAnalyze_spec c7WitLib "W" [] ["t1", "x"] (by decide) (by decide)⟩

/-- Claim C2: whenever the similarity result list is non-empty and the
confirmation answer is an explicit cancel (`some false`) or no answer at all
(`none`), addNewEntry returns with the library — node table, component
table, outer-reference table and arenas — structurally identical to its
pre-call state, and the two rejection answers produce the identical
result. -/
theorem addNewEntry_rejection_no_mutation
    (lib : Library) (title wikiTag : String) (aliases tags : List String)
    (description : String) (titleItems : List String) (confirm : Option Bool)
    (hsim : similarityAnalyze lib wikiTag aliases titleItems ≠ [])
    (hconf : confirm = none ∨ confirm = some false) :
    addNewEntry lib title wikiTag aliases tags description titleItems confirm =
      .ok (lib, .canceled) := by
  have hlen : 0 < (similarityAnalyze lib wikiTag aliases titleItems).length :=
    List.length_pos.mpr hsim
  unfold addNewEntry
  rcases hconf with h | h <;> subst h <;> simp [hlen]

/-- Witness for C2: a concrete library whose single node scores similarity 1
against the candidate, with both rejection answers. -/
theorem addNewEntry_rejection_no_mutation_witness :
    (similarityAnalyze c2Lib "Q" [] ["t"] ≠ [] ∧
      addNewEntry c2Lib "ttl" "Q" [] [] "" ["t"] none = .ok (c2Lib, .canceled)) ∧
    addNewEntry c2Lib "ttl" "Q" [] [] "" ["t"] (some false) = .ok (c2Lib, .canceled) :=
  ⟨⟨by decide,
    addNewEntry_rejection_no_mutation c2Lib "ttl" "Q" [] [] "" ["t"] none
      (by decide) (Or.inl rfl)⟩,
   addNewEntry_rejection_no_mutation c2Lib "ttl" "Q" [] [] "" ["t"] (some false)
      (by decide) (Or.inr rfl)⟩

/-- Claim C1 (counterexample): run purely incrementally, inserting `X` with
tags `[Y]` into the empty library records no outer-reference entry for `Y`
at all (the claim asserts `Y -> [X]`), and the later insertion of `Y` with
tags `[X]` therefore leaves two separate singleton components instead of
the claimed single merged component containing both. -/
theorem scenarioA_incremental_counterexample :
    lookupA c1AfterX.outerTagRefs "Y" = none ∧
    parentsOfKey c1AfterX "X" = some [] ∧
    c1AfterXY.sccs = [("X", 0), ("Y", 1)] ∧
    membersOfPseudo c1AfterXY "X" = some [0] ∧
    membersOfPseudo c1AfterXY "Y" = some [1] ∧
    lookupA c1AfterXY.outerTagRefs "Y" = none := by decide

/-- Claim C1 (amended): outer references are recorded by the full graph
build, not by incremental insertion.  When the pre-state is a full build in
which `X` declared the missing tag `Y` (so the outer-reference table maps
`Y` to `[X]` and `X` has no parents), inserting `Y` with tags `[X]` via
addNewEntry yields a single component in the component table whose members
are exactly `Y` and `X`, and no outer-reference entry for `Y` remains. -/
theorem scenarioA_merge_after_full_build :
    (lookupA c1PreLib.outerTagRefs "Y" = some [0] ∧
      ((getNode c1PreLib 0).map Node.wikiTag) = some "X" ∧
      parentsOfKey c1PreLib "X" = some []) ∧
    c1Merged.sccs = [("Y", 1)] ∧
    membersOfPseudo c1Merged "Y" = some [1, 0] ∧
    ((getNode c1Merged 1).map Node.wikiTag) = some "Y" ∧
    ((getNode c1Merged 0).map Node.wikiTag) = some "X" ∧
    lookupA c1Merged.outerTagRefs "Y" = none := by decide

/-- Claim C4 (counterexample): in scenario C (`A` declares `[B]`, `B`
declares `[C]`, `C` declares `[]`), after the full build and propagation
`B.inheritTags` does not contain `C` — `add_inherit_tags` excludes every
identifier already among the node's explicit tags — contradicting the
claimed `B.inheritedTags ⊇ \x7bC\x7d` (and likewise `A ⊇ \x7bB\x7d`). -/
theorem scenarioC_counterexample :
    ¬ ∃ lb, inhOfKey c4Lib "B" = some lb ∧ "C" ∈ lb := by
  have h : inhOfKey c4Lib "B" = some [] := by decide
  rintro ⟨lb, hlb, hmem⟩
  rw [h] at hlb
  cases hlb
  exact absurd hmem (List.not_mem_nil _)

/-- Claim C4 (amended): in scenario C the propagator computes
`A.inheritTags = \x7bC\x7d` (the grandparent only: `B` is excluded because it is
one of `A`'s explicit tags), `B.inheritTags = ∅` (its sole ancestor `C` is
explicit on `B`), and `C.inheritTags = ∅`. -/
theorem scenarioC_actual_inheritance :
    inhOfKey c4Lib "A" = some ["C"] ∧
    inhOfKey c4Lib "B" = some [] ∧
    inhOfKey c4Lib "C" = some [] := by decide

/-- Claim C9: the scoped component-level Tarjan pass discovers every
component reachable from the new singleton, so it reports more than one
maximal component already on well-formed input — here a full build of two
clean notes (`W`, and `X` tagging the missing `Y` plus `W`), whose
outer-reference entry is pending and whose key resolves to no node — and
the engine then signals the fatal "Algorithm wrong" error and aborts the
insertion. -/
theorem superTarjan_errors_on_wellformed_input :
    (lookupA c9Lib.outerTagRefs "Y" = some [1] ∧
      lookupA c9Lib.nodes "Y" = none ∧
      ((getNode c9Lib 1).map Node.wikiTag) = some "X") ∧
    addNewEntry c9Lib "Y" "Y" [] ["X"] "" [] none =
      .error "Error: Algorithm wrong, there are more than one Super SCCs." := by decide

end Wiki
